import Mathlib

/-!
Verification development for the VisualGenome ROIDB preprocessing script
(`data_tools/vg_to_roidb_vrr.py`).

The script's core algorithms are embedded shallowly:
  * boxes and coordinates are integers (the script reads integer pixel
    coordinates from XML and stores `int32` arrays);
  * the floating-point scale factor of `encode_box` and the box-mean of
    `merge_duplicate_boxes` are modelled with exact rational arithmetic
    (`ℚ`), with Python `int()` modelled as truncation toward zero;
  * Python dicts are modelled as association lists whose lookup returns
    the most recent binding, and Python sets of strings as `Finset`;
  * the stateful marking loop of `merge_duplicate_boxes` is modelled by
    explicit state passing over a list of optional marks.
-/

namespace VGPrep

/-- An annotated object of one image, as manipulated by the script:
`object_id`, the list of (normalized) names, and the `(x, y, w, h)` box in
original pixel space.  `ids` is the list of original ids subsumed by a
merge (initially the singleton `[object_id]`, set by
`preprocess_object_labels`). -/
structure Obj where
  object_id : Nat
  names : List String
  x : Int
  y : Int
  w : Int
  h : Int
  ids : List Nat
deriving Repr, DecidableEq

instance : Inhabited Obj := ⟨⟨0, [], 0, 0, 0, 0, []⟩⟩

/-- A corner-form rectangle `[x1, y1, x2, y2]` as produced by
`to_x1y1x2y2`. -/
structure Rect where
  x1 : Int
  y1 : Int
  x2 : Int
  y2 : Int
deriving Repr, DecidableEq

/-- Function `to_x1y1x2y2(obj)`: corner form of an object's box. -/
def to_x1y1x2y2 (o : Obj) : Rect :=
  { x1 := o.x, y1 := o.y, x2 := o.x + o.w, y2 := o.y + o.h }

/-- Function `IoU(b1, b2)` of `merge_duplicate_boxes`: `0` for disjoint boxes,
otherwise intersection area over bounding-rectangle area (the script's
`union_area` is the area of the bounding rectangle of the stacked
coordinates). -/
def IoU (b1 b2 : Rect) : ℚ :=
  if b1.x2 ≤ b2.x1 ∨ b1.y2 ≤ b2.y1 ∨ b1.x1 ≥ b2.x2 ∨ b1.y1 ≥ b2.y2 then 0
  else
    let union_area : Int := (max b1.x2 b2.x2 - min b1.x1 b2.x1) * (max b1.y2 b2.y2 - min b1.y1 b2.y1)
    let int_area : Int := (min b1.x2 b2.x2 - max b1.x1 b2.x1) * (min b1.y2 b2.y2 - max b1.y1 b2.y1)
    (int_area : ℚ) / (union_area : ℚ)

/-- Predicate `inside(b1, b2)`: `b1` lies fully inside `b2`. -/
def inside (b1 b2 : Rect) : Prop :=
  b1.x1 ≥ b2.x1 ∧ b1.y1 ≥ b2.y1 ∧ b1.x2 ≤ b2.x2 ∧ b1.y2 ≤ b2.y2

instance (b1 b2 : Rect) : Decidable (inside b1 b2) := by
  unfold inside; infer_instance

/-- Function `overlap(obj1, obj2)`: classify a pair of objects.
`1` = identical box (equal rectangles or IoU > 0.9),
`2` = one contained in the other with the same first name,
`3` = IoU > 0.6 with the same first name, `0` = no merge. -/
def overlap (o1 o2 : Obj) : Nat :=
  let b1 := to_x1y1x2y2 o1
  let b2 := to_x1y1x2y2 o2
  if b1 = b2 ∨ IoU b1 b2 > 9/10 then 1
  else if (inside b1 b2 ∨ inside b2 b1) ∧ o1.names.headI = o2.names.headI then 2
  else if IoU b1 b2 > 6/10 ∧ o1.names.headI = o2.names.headI then 3
  else 0

/-- Inner marking loop of `merge_duplicate_boxes`: for a fixed seed object
`oi` scan the index list `js` (the indices `i+1, …, n-1`), skip objects
already marked, and mark every object that overlaps the seed, returning
the updated marks and the list of indices absorbed by this seed (the
seed's `mobjs`, by index). -/
def markMerges (objs : List Obj) (oi : Obj) (marks : List (Option Nat)) :
    List Nat → List (Option Nat) × List Nat
  | [] => (marks, [])
  | j :: js =>
    match marks.getD j none with
    | some _ => markMerges objs oi marks js
    | none =>
      let t := overlap oi (objs.getD j default)
      if t > 0 then
        let r := markMerges objs oi (marks.set j (some t)) js
        (r.1, j :: r.2)
      else
        markMerges objs oi marks js

/-- Outer marking loop of `merge_duplicate_boxes`: process the object
indices `is` in order; an already-marked object is skipped, otherwise it
becomes a seed, its inner scan runs, and the pair
`(seed index, absorbed indices)` is recorded. -/
def markOuter (objs : List Obj) (marks : List (Option Nat)) :
    List Nat → List (Option Nat) × List (Nat × List Nat)
  | [] => (marks, [])
  | i :: is =>
    match marks.getD i none with
    | some _ => markOuter objs marks is
    | none =>
      let r := markMerges objs (objs.getD i default) marks
        (List.range' (i + 1) (objs.length - (i + 1)))
      let rest := markOuter objs r.1 is
      (rest.1, (i, r.2) :: rest.2)

/-- Python `int()` on an exact rational value: truncation toward zero. -/
def truncQ (q : ℚ) : Int := q.num.tdiv (q.den : Int)

/-- Bounding union of a nonempty family of rectangles (`min` of the mins,
`max` of the maxes), as computed by the `prominent_type > 1` branch. -/
def unionRect (d0 : Rect) (ds : List Rect) : Rect :=
  { x1 := ds.foldl (fun a r => min a r.x1) d0.x1
    y1 := ds.foldl (fun a r => min a r.y1) d0.y1
    x2 := ds.foldl (fun a r => max a r.x2) d0.x2
    y2 := ds.foldl (fun a r => max a r.y2) d0.y2 }

/-- Coordinate-wise mean of a nonempty family of rectangles (`np.mean` of
the stacked coordinates), as an exact rational. -/
def meanQ (d0 : Rect) (ds : List Rect) : ℚ × ℚ × ℚ × ℚ :=
  let n : ℚ := ((ds.length + 1 : Nat) : ℚ)
  (((d0 :: ds).map (fun r => (r.x1 : ℚ))).sum / n,
   ((d0 :: ds).map (fun r => (r.y1 : ℚ))).sum / n,
   ((d0 :: ds).map (fun r => (r.x2 : ℚ))).sum / n,
   ((d0 :: ds).map (fun r => (r.y2 : ℚ))).sum / n)

/-- Second phase of `merge_duplicate_boxes` for one surviving seed:
collect the ids, names and rectangles of the seed and its absorbed
partners, compute the prominent merge type (running maximum of the
absorbed partners' `M_TYPE`, starting at 1), take the bounding union if
the prominent type exceeds 1 and the coordinate-wise mean otherwise, and
store the resulting box back in `(x, y, w, h)` form through `int()`
truncation. -/
def mergeSeed (objs : List Obj) (marks : List (Option Nat)) (i : Nat) (js : List Nat) : Obj :=
  let obj := objs.getD i default
  let d0 := to_x1y1x2y2 obj
  let ds := js.map (fun j => to_x1y1x2y2 (objs.getD j default))
  let prominent := js.foldl
    (fun p j => if (marks.getD j none).getD 0 > p then (marks.getD j none).getD 0 else p) 1
  let mdims : ℚ × ℚ × ℚ × ℚ :=
    if prominent > 1 then
      (((unionRect d0 ds).x1 : ℚ), ((unionRect d0 ds).y1 : ℚ),
       ((unionRect d0 ds).x2 : ℚ), ((unionRect d0 ds).y2 : ℚ))
    else meanQ d0 ds
  { object_id := obj.object_id
    names := (obj.names ++ (js.map (fun j => (objs.getD j default).names)).flatten).eraseDups
    x := truncQ mdims.1
    y := truncQ mdims.2.1
    w := truncQ (mdims.2.2.1 - mdims.1)
    h := truncQ (mdims.2.2.2 - mdims.2.1)
    ids := obj.object_id :: js.map (fun j => (objs.getD j default).object_id) }

/-- Function `merge_duplicate_boxes` restricted to a single image (the per-image
body of the loop): mark, then fuse.  Surviving objects are exactly the
seeds, in their original order. -/
def merge_duplicate_boxes_img (objs : List Obj) : List Obj :=
  let r := markOuter objs (List.replicate objs.length none) (List.range objs.length)
  r.2.map (fun p => mergeSeed objs r.1 p.1 p.2)

/-- Function `build_token_dict(vocab)`: sort the token set lexicographically
(`sorted(list(vocab))`, the input being a Python set, modelled by
`toFinset`) and assign consecutive indices starting from 1, building the
two association lists `token_to_idx` and `idx_to_token` by the source's
fold with the running `next_idx`. -/
def build_token_dict (vocab : List String) :
    List (String × Nat) × List (Nat × String) :=
  let vocab_sorted := vocab.toFinset.sort (· ≤ ·)
  let r := vocab_sorted.foldl
    (fun (acc : List (String × Nat) × List (Nat × String) × Nat) token =>
      (acc.1 ++ [(token, acc.2.2)], acc.2.1 ++ [(acc.2.2, token)], acc.2.2 + 1))
    ([], [], 1)
  (r.1, r.2.1)

/-- The scaling step of `encode_box`: `scale = im_long_size / max(org_h,
org_w)` (exact rational), 1-indexed positions shifted and floored,
extents ceiled. -/
def scaleBox (x y w h org_h org_w im_long_size : Int) : Int × Int × Int × Int :=
  let scale : ℚ := (im_long_size : ℚ) / ((max org_h org_w : Int) : ℚ)
  (⌊scale * ((x : ℚ) - 1)⌋, ⌊scale * ((y : ℚ) - 1)⌋,
   ⌈scale * (w : ℚ)⌉, ⌈scale * (h : ℚ)⌉)

/-- The clamping step of `encode_box`: clamp the position into
`[0, image_size - 2]`, then shrink the extent whenever
`position + extent ≥ image_size`. -/
def clampBox (x0 y0 w0 h0 image_size : Int) : Int × Int × Int × Int :=
  let x1 := if x0 < 0 then 0 else x0
  let y1 := if y0 < 0 then 0 else y0
  let x2 := if x1 > image_size - 2 then image_size - 2 else x1
  let y2 := if y1 > image_size - 2 then image_size - 2 else y1
  let w1 := if x2 + w0 ≥ image_size then image_size - x2 else w0
  let h1 := if y2 + h0 ≥ image_size then image_size - y2 else h0
  (x2, y2, w1, h1)

/-- Function `encode_box(region, org_h, org_w, im_long_size)`: scale, clamp, and
convert to center-oriented `(cx, cy, w, h)` (the `floor(w/2)` of the
source is integer floor division). -/
def encode_box (x y w h org_h org_w im_long_size : Int) : Int × Int × Int × Int :=
  let s := scaleBox x y w h org_h org_w im_long_size
  let c := clampBox s.1 s.2.1 s.2.2.1 s.2.2.2 im_long_size
  (c.1 + c.2.2.1.fdiv 2, c.2.1 + c.2.2.2.fdiv 2, c.2.2.1, c.2.2.2)

/-- The label-resolution loop of `encode_objects`: scan the object's
names with a running `(max_occur, obj_label)` state, updating whenever a
name is in the vocabulary and its corpus count strictly exceeds the
running maximum. -/
def pickLabel (t2i : String → Option Nat) (cnt : String → Nat)
    (names : List String) : Option String :=
  (names.foldl
    (fun (st : Nat × Option String) name =>
      if (t2i name).isSome ∧ cnt name > st.1 then (cnt name, some name) else st)
    (0, none)).2

/-- Maximum corpus count over the in-vocabulary names of a list
(0 when none is in the vocabulary); specification device for
`pickLabel`. -/
def maxCount (t2i : String → Option Nat) (cnt : String → Nat) : List String → Nat
  | [] => 0
  | n :: ns =>
    if (t2i n).isSome then max (cnt n) (maxCount t2i cnt ns)
    else maxCount t2i cnt ns

/-- Accumulated per-image state of `encode_objects`: the flat label list,
the per-target-size flat box lists, the image's `id_to_idx` table (most
recent binding first, i.e. Python-dict override semantics under
`List.lookup`), and the running `obj_counter`. -/
structure ObjState where
  labels : List Nat
  boxes : List (List (Int × Int × Int × Int))
  table : List (Nat × Nat)
  ctr : Nat
deriving Repr, DecidableEq

/-- Per-image object loop of `encode_objects`: resolve each object's
label; an object with no resolvable label is skipped, otherwise its box
is encoded at every target size, its label index appended, and every one
of its merged `ids` mapped to the current counter. -/
def encodeImgObjs (t2i : String → Option Nat) (cnt : String → Nat)
    (sizes : List Int) (orgH orgW : Int) (st : ObjState) :
    List Obj → ObjState
  | [] => st
  | obj :: rest =>
    match pickLabel t2i cnt obj.names with
    | none => encodeImgObjs t2i cnt sizes orgH orgW st rest
    | some lab =>
      encodeImgObjs t2i cnt sizes orgH orgW
        { labels := st.labels ++ [(t2i lab).getD 0]
          boxes := List.zipWith
            (fun sz bl => bl ++ [encode_box obj.x obj.y obj.w obj.h orgH orgW sz])
            sizes st.boxes
          table := obj.ids.foldl (fun tb oid => (oid, st.ctr) :: tb) st.table
          ctr := st.ctr + 1 } rest

/-- The outputs of `encode_objects`: flat labels, per-size flat boxes,
the two CSR range arrays and the per-image `id_to_idx` tables. -/
structure EncObjs where
  labels : List Nat
  boxes : List (List (Int × Int × Int × Int))
  im_to_first_obj : List Int
  im_to_last_obj : List Int
  id_to_idx : List (List (Nat × Nat))
deriving Repr, DecidableEq

/-- Image loop of `encode_objects` from image index `i` and counter
`ctr`, producing the outputs for the remaining images. -/
def encodeObjsAux (t2i : String → Option Nat) (cnt : String → Nat)
    (sizes : List Int) (orgH orgW : List Int) :
    List (List Obj) → Nat → Nat → EncObjs
  | [], _, _ =>
    ⟨[], sizes.map (fun _ => []), [], [], []⟩
  | objs :: rest, i, ctr =>
    let r := encodeImgObjs t2i cnt sizes (orgH.getD i 0) (orgW.getD i 0)
      ⟨[], sizes.map (fun _ => []), [], ctr⟩ objs
    let tail := encodeObjsAux t2i cnt sizes orgH orgW rest (i + 1) r.ctr
    ⟨r.labels ++ tail.labels,
     List.zipWith (· ++ ·) r.boxes tail.boxes,
     (if ctr = r.ctr then -1 else (ctr : Int)) :: tail.im_to_first_obj,
     (if ctr = r.ctr then -1 else (r.ctr : Int) - 1) :: tail.im_to_last_obj,
     r.table :: tail.id_to_idx⟩

/-- Function `encode_objects(obj_data, token_to_idx, token_counter, org_h, org_w,
im_long_sizes)`. -/
def encode_objects (obj_data : List (List Obj)) (t2i : String → Option Nat)
    (cnt : String → Nat) (orgH orgW : List Int) (sizes : List Int) : EncObjs :=
  encodeObjsAux t2i cnt sizes orgH orgW obj_data 0 0

/-- A relationship record: the two endpoint object ids and the
(normalized) predicate. -/
structure Rela where
  subject_id : Nat
  obj_id : Nat
  predicate : String
deriving Repr, DecidableEq

/-- Outcome of the filter chain of `encode_relationships` for one
relationship. -/
inductive RelOutcome where
  | objFiltered
  | predFiltered
  | dupFiltered
  | kept (p : Nat) (s : Nat) (o : Nat)
deriving Repr, DecidableEq

/-- The filter chain of `encode_relationships`, in source order: endpoint
missing from the image's `id_to_idx` table, then predicate missing from
the vocabulary, then both endpoints resolving to the same index;
otherwise the encoded triple is kept. -/
def classifyRel (t2i : String → Option Nat) (table : List (Nat × Nat))
    (r : Rela) : RelOutcome :=
  if (table.lookup r.subject_id).isNone ∨ (table.lookup r.obj_id).isNone then
    .objFiltered
  else if (t2i r.predicate).isNone then
    .predFiltered
  else if (table.lookup r.subject_id).getD 0 = (table.lookup r.obj_id).getD 0 then
    .dupFiltered
  else
    .kept ((t2i r.predicate).getD 0)
      ((table.lookup r.subject_id).getD 0) ((table.lookup r.obj_id).getD 0)

/-- Accumulated state of `encode_relationships`: flat predicate and pair
lists, the three rejection counters and the running
`rel_idx_counter`. -/
structure RelState where
  preds : List Nat
  pairs : List (Nat × Nat)
  obj_filtered : Nat
  predicate_filtered : Nat
  duplicate_filtered : Nat
  ctr : Nat
deriving Repr, DecidableEq

/-- Per-image relationship loop of `encode_relationships`. -/
def encodeImgRels (t2i : String → Option Nat) (table : List (Nat × Nat))
    (st : RelState) : List Rela → RelState
  | [] => st
  | r :: rest =>
    match classifyRel t2i table r with
    | .objFiltered =>
      encodeImgRels t2i table { st with obj_filtered := st.obj_filtered + 1 } rest
    | .predFiltered =>
      encodeImgRels t2i table { st with predicate_filtered := st.predicate_filtered + 1 } rest
    | .dupFiltered =>
      encodeImgRels t2i table { st with duplicate_filtered := st.duplicate_filtered + 1 } rest
    | .kept p s o =>
      encodeImgRels t2i table
        { st with preds := st.preds ++ [p], pairs := st.pairs ++ [(s, o)],
                  ctr := st.ctr + 1 } rest

/-- The outputs of `encode_relationships`. -/
structure EncRels where
  encoded_pred : List Nat
  encoded_rel : List (Nat × Nat)
  im_to_first_rel : List Int
  im_to_last_rel : List Int
  obj_filtered : Nat
  predicate_filtered : Nat
  duplicate_filtered : Nat
deriving Repr, DecidableEq

/-- Image loop of `encode_relationships` over the remaining images,
with the per-image `id_to_idx` tables supplied by `encode_objects`. -/
def encodeRelsAux (t2i : String → Option Nat) (tables : List (List (Nat × Nat))) :
    List (List Rela) → Nat → RelState → EncRels
  | [], _, st => ⟨[], [], [], [], st.obj_filtered, st.predicate_filtered, st.duplicate_filtered⟩
  | rels :: rest, i, st =>
    let r := encodeImgRels t2i (tables.getD i []) { st with preds := [], pairs := [] } rels
    let tail := encodeRelsAux t2i tables rest (i + 1) { r with preds := [], pairs := [] }
    ⟨r.preds ++ tail.encoded_pred,
     r.pairs ++ tail.encoded_rel,
     (if st.ctr = r.ctr then -1 else (st.ctr : Int)) :: tail.im_to_first_rel,
     (if st.ctr = r.ctr then -1 else (r.ctr : Int) - 1) :: tail.im_to_last_rel,
     tail.obj_filtered, tail.predicate_filtered, tail.duplicate_filtered⟩

/-- Function `encode_relationships(rel_data, token_to_idx, obj_data)`; `tables`
holds each image's `id_to_idx`. -/
def encode_relationships (rel_data : List (List Rela))
    (t2i : String → Option Nat) (tables : List (List (Nat × Nat))) : EncRels :=
  encodeRelsAux t2i tables rel_data 0 ⟨[], [], 0, 0, 0, 0⟩

/-- A Python 2 string value: either a byte string (`str`) or a text
string (`unicode`, a sequence of code points). -/
inductive PyStr where
  | bytes (bs : List Nat)
  | unicode (cs : List Nat)
deriving Repr, DecidableEq

/-- UTF-8 encoding of one code point. -/
def utf8EncodeChar (cp : Nat) : List Nat :=
  if cp < 0x80 then [cp]
  else if cp < 0x800 then [0xC0 + cp / 0x40, 0x80 + cp % 0x40]
  else if cp < 0x10000 then
    [0xE0 + cp / 0x1000, 0x80 + (cp / 0x40) % 0x40, 0x80 + cp % 0x40]
  else
    [0xF0 + cp / 0x40000, 0x80 + (cp / 0x1000) % 0x40,
     0x80 + (cp / 0x40) % 0x40, 0x80 + cp % 0x40]

/-- Python 2 `phrase.encode('utf-8')`: a `unicode` value is UTF-8
encoded; a byte string is first implicitly decoded with the `ascii`
codec, so any byte ≥ 0x80 raises `UnicodeDecodeError`. -/
def pyEncodeUtf8 : PyStr → Except String (List Nat)
  | .bytes bs =>
    if bs.all (fun b => b < 0x80) then .ok bs else .error "UnicodeDecodeError"
  | .unicode cs => .ok (cs.map utf8EncodeChar).flatten

/-- Python `lstrip(' ')` then `rstrip(' ')` on bytes: strip leading and trailing
space bytes. -/
def stripSpaces (bs : List Nat) : List Nat :=
  ((bs.dropWhile (fun b => b = 32)).reverse.dropWhile (fun b => b = 32)).reverse

/-- Left-to-right non-overlapping `str.replace` on bytes. -/
def replaceAll (pat rep : List Nat) : List Nat → List Nat
  | [] => []
  | b :: rest =>
    if pat ≠ [] ∧ pat.isPrefixOf (b :: rest) then
      rep ++ replaceAll pat rep ((b :: rest).drop pat.length)
    else
      b :: replaceAll pat rep rest
termination_by l => l.length
decreasing_by
  · simp only [List.length_drop, List.length_cons]
    rename_i h
    rcases pat with _ | ⟨p, ps⟩
    · exact absurd rfl h.1
    · simp only [List.length_cons]
      omega
  · simp

/-- The `replacements` table of `sentence_preprocess`, with each key as
its UTF-8 byte sequence (the source file is UTF-8 encoded and the keys
are Python 2 byte-string literals). -/
def replacements : List (List Nat × List Nat) :=
  [([0xC2, 0xBD], [104, 97, 108, 102]),              -- '½' -> 'half'
   ([0xE2, 0x80, 0x94], [45]),                       -- '—' -> '-'
   ([0xE2, 0x84, 0xA2], []),                         -- '™' -> ''
   ([0xC2, 0xA2], [99, 101, 110, 116]),              -- '¢' -> 'cent'
   ([0xC3, 0xA7], [99]),                             -- 'ç' -> 'c'
   ([0xC3, 0xBB], [117]),                            -- 'û' -> 'u'
   ([0xC3, 0xA9], [101]),                            -- 'é' -> 'e'
   ([0xC2, 0xB0], [32, 100, 101, 103, 114, 101, 101]), -- '°' -> ' degree'
   ([0xC3, 0xA8], [101]),                            -- 'è' -> 'e'
   ([0xE2, 0x80, 0xA6], [])]                         -- '…' -> ''

/-- Apply every replacement of the table in order. -/
def applyReplacements (bs : List Nat) : List Nat :=
  replacements.foldl (fun acc p => replaceAll p.1 p.2 acc) bs

/-- Python 2 `str.lower()`: ASCII lowercasing of bytes. -/
def lowerBytes (bs : List Nat) : List Nat :=
  bs.map (fun b => if 65 ≤ b ∧ b ≤ 90 then b + 32 else b)

/-- Membership in `string.punctuation` (the 32 ASCII punctuation
characters), deleted by `translate(None, string.punctuation)`. -/
def isPunct (b : Nat) : Bool :=
  (33 ≤ b && b ≤ 47) || (58 ≤ b && b ≤ 64) || (91 ≤ b && b ≤ 96) || (123 ≤ b && b ≤ 126)

/-- Python `decode('utf-8', 'ignore')`: UTF-8 decoding that silently drops
undecodable bytes. -/
def utf8DecodeIgnore : List Nat → List Nat
  | [] => []
  | b :: rest =>
    if b < 0x80 then b :: utf8DecodeIgnore rest
    else if 0xC2 ≤ b && b ≤ 0xDF then
      match rest with
      | [] => []
      | c :: rest2 =>
        if 0x80 ≤ c && c ≤ 0xBF then
          ((b - 0xC0) * 0x40 + (c - 0x80)) :: utf8DecodeIgnore rest2
        else utf8DecodeIgnore (c :: rest2)
    else if 0xE0 ≤ b && b ≤ 0xEF then
      match rest with
      | [] => []
      | c :: rest2 =>
        if 0x80 ≤ c && c ≤ 0xBF then
          match rest2 with
          | [] => []
          | d :: rest3 =>
            if 0x80 ≤ d && d ≤ 0xBF then
              ((b - 0xE0) * 0x1000 + (c - 0x80) * 0x40 + (d - 0x80)) :: utf8DecodeIgnore rest3
            else utf8DecodeIgnore (d :: rest3)
        else utf8DecodeIgnore (c :: rest2)
    else if 0xF0 ≤ b && b ≤ 0xF4 then
      match rest with
      | [] => []
      | c :: rest2 =>
        if 0x80 ≤ c && c ≤ 0xBF then
          match rest2 with
          | [] => []
          | d :: rest3 =>
            if 0x80 ≤ d && d ≤ 0xBF then
              match rest3 with
              | [] => []
              | e :: rest4 =>
                if 0x80 ≤ e && e ≤ 0xBF then
                  ((b - 0xF0) * 0x40000 + (c - 0x80) * 0x1000 + (d - 0x80) * 0x40 + (e - 0x80))
                    :: utf8DecodeIgnore rest4
                else utf8DecodeIgnore (e :: rest4)
            else utf8DecodeIgnore (d :: rest3)
        else utf8DecodeIgnore (c :: rest2)
    else utf8DecodeIgnore rest
termination_by l => l.length
decreasing_by all_goals (simp only [List.length_cons]; omega)

/-- Function `sentence_preprocess(phrase)` under Python 2 semantics: encode to
UTF-8 (raising on a non-ASCII byte string), strip spaces, apply the
special-character replacements, lowercase, delete ASCII punctuation, and
decode back ignoring undecodable bytes. -/
def sentence_preprocess (phrase : PyStr) : Except String (List Nat) :=
  match pyEncodeUtf8 phrase with
  | .error e => .error e
  | .ok bs =>
    .ok (utf8DecodeIgnore
      ((lowerBytes (applyReplacements (stripSpaces bs))).filter (fun b => ¬ isPunct b)))

/-- Specification device: the CSR first/last arrays generated by a list
of per-image emission counts, starting from counter value `c` (the
pattern common to `encode_objects` and `encode_relationships`). -/
def csr (counts : List Nat) (c : Nat) : List Int × List Int :=
  match counts with
  | [] => ([], [])
  | k :: ks =>
    let rest := csr ks (c + k)
    ((if k = 0 then -1 else (c : Int)) :: rest.1,
     (if k = 0 then -1 else (c + k : Int) - 1) :: rest.2)

/-- The index slices named by the non-sentinel CSR ranges, in image
order. -/
def csrSlices (f l : List Int) : List (List Nat) :=
  (f.zip l).filterMap
    (fun p => if p.1 = -1 then none
              else some (List.range' p.1.toNat (p.2 - p.1 + 1).toNat))

/-- The CSR invariant for a pair of range arrays over a flat array of
`total` entries: parallel arrays; each image either carries the sentinel
`(-1, -1)` or a valid inclusive in-bounds range; ranges of distinct
images are strictly ordered; and the non-sentinel ranges, in image
order, concatenate to exactly the index sequence `0, …, total - 1`
(no gap, no overlap). -/
def CSRInv (f l : List Int) (total : Nat) : Prop :=
  f.length = l.length ∧
  (∀ i, i < f.length →
    (f.getD i 0 = -1 ∧ l.getD i 0 = -1) ∨
    (0 ≤ f.getD i 0 ∧ f.getD i 0 ≤ l.getD i 0 ∧ l.getD i 0 < (total : Int))) ∧
  (∀ i j, i < j → j < f.length → f.getD i 0 ≠ -1 → f.getD j 0 ≠ -1 →
    l.getD i 0 < f.getD j 0) ∧
  (csrSlices f l).flatten = List.range total

/-- Number of objects of one image kept by `encode_objects` (those with
a resolvable label). -/
def keptObjCount (t2i : String → Option Nat) (cnt : String → Nat)
    (objs : List Obj) : Nat :=
  (objs.filter (fun o => (pickLabel t2i cnt o.names).isSome)).length

/-- Whether a relationship survives the filter chain. -/
def relKept (t2i : String → Option Nat) (table : List (Nat × Nat))
    (r : Rela) : Bool :=
  match classifyRel t2i table r with
  | .kept _ _ _ => true
  | _ => false

/-- Number of relationships of one image kept by
`encode_relationships`. -/
def keptRelCount (t2i : String → Option Nat) (table : List (Nat × Nat))
    (rels : List Rela) : Nat :=
  (rels.filter (relKept t2i table)).length

/-- Number of marked entries in a mark list. -/
def countSome (l : List (Option Nat)) : Nat := l.countP (fun o => o.isSome)

/-- Per-image kept-relationship counts from image index `i` on
(specification device for the CSR bridge). -/
def relCounts (t2i : String → Option Nat) (tables : List (List (Nat × Nat))) :
    List (List Rela) → Nat → List Nat
  | [], _ => []
  | rels :: rest, i =>
    keptRelCount t2i (tables.getD i []) rels :: relCounts t2i tables rest (i + 1)

/-- The final mark state of the marking phase for one image. -/
def mergeMarks (objs : List Obj) : List (Option Nat) :=
  (markOuter objs (List.replicate objs.length none) (List.range objs.length)).1

/-- The seed/absorbed assignment of the marking phase for one image. -/
def mergeAssignment (objs : List Obj) : List (Nat × List Nat) :=
  (markOuter objs (List.replicate objs.length none) (List.range objs.length)).2

/-- Example object: a 10 by 10 box named "a" at the origin. -/
def exObjA : Obj := ⟨1, ["a"], 0, 0, 10, 10, [1]⟩

/-- Example object: a 10 by 11 box named "a" at the origin (IoU 10/11
with `exObjA`, hence classified Identical). -/
def exObjB : Obj := ⟨2, ["a"], 0, 0, 10, 11, [2]⟩

/-- Example object: a 5 by 5 box named "a" inside `exObjA` (classified
Containment). -/
def exObjC : Obj := ⟨3, ["a"], 2, 2, 5, 5, [3]⟩

/-- Example vocabulary: only "a" and "b", with indices 1 and 2. -/
def exVocab : String → Option Nat :=
  fun s => if s = "a" then some 1 else if s = "b" then some 2 else none

/-- Example corpus counter: every token occurs 5 times. -/
def exCnt : String → Nat := fun _ => 5

/-! ### Lemmas about list updates -/

theorem getD_set_ne (l : List (Option Nat)) (j p : Nat) (t : Option Nat)
    (h : p ≠ j) : (l.set j t).getD p none = l.getD p none := by
  simp [List.getD_eq_getElem?_getD, List.getElem?_set_ne (Ne.symm h)]

theorem getD_set_self (l : List (Option Nat)) (j : Nat) (t : Option Nat)
    (h : j < l.length) : (l.set j t).getD j none = t := by
  simp [List.getD_eq_getElem?_getD, List.getElem?_set_self h]

theorem countSome_set (l : List (Option Nat)) (j : Nat) (t : Nat)
    (hj : j < l.length) (hn : l.getD j none = none) :
    countSome (l.set j (some t)) = countSome l + 1 := by
  induction l generalizing j with
  | nil => simp at hj
  | cons a l ih =>
    cases j with
    | zero =>
      simp only [List.getD_cons_zero] at hn
      subst hn
      simp [countSome, List.countP_cons]
    | succ j =>
      simp only [List.getD_cons_succ] at hn
      simp only [List.length_cons, Nat.succ_lt_succ_iff] at hj
      simp only [List.set_cons_succ, countSome, List.countP_cons]
      have := ih j hj hn
      simp only [countSome] at this
      omega

theorem countSome_replicate (n : Nat) :
    countSome (List.replicate n none) = 0 := by
  induction n with
  | zero => rfl
  | succ n ih => simp [countSome, List.replicate_succ, List.countP_cons]

/-! ### The marking phase of `merge_duplicate_boxes` -/

theorem markMerges_cons_skip (objs : List Obj) (oi : Obj) (marks : List (Option Nat))
    (j : Nat) (js : List Nat) (t : Nat) (h : marks.getD j none = some t) :
    markMerges objs oi marks (j :: js) = markMerges objs oi marks js := by
  simp only [markMerges, h]

theorem markMerges_cons_mark (objs : List Obj) (oi : Obj) (marks : List (Option Nat))
    (j : Nat) (js : List Nat) (h : marks.getD j none = none)
    (ht : overlap oi (objs.getD j default) > 0) :
    markMerges objs oi marks (j :: js) =
      ((markMerges objs oi (marks.set j (some (overlap oi (objs.getD j default)))) js).1,
       j :: (markMerges objs oi (marks.set j (some (overlap oi (objs.getD j default)))) js).2) := by
  simp only [markMerges, h]
  rw [if_pos ht]

theorem markMerges_cons_zero (objs : List Obj) (oi : Obj) (marks : List (Option Nat))
    (j : Nat) (js : List Nat) (h : marks.getD j none = none)
    (ht : ¬ overlap oi (objs.getD j default) > 0) :
    markMerges objs oi marks (j :: js) = markMerges objs oi marks js := by
  simp only [markMerges, h]
  rw [if_neg ht]

theorem markMerges_length (objs : List Obj) (oi : Obj) (marks : List (Option Nat))
    (js : List Nat) : (markMerges objs oi marks js).1.length = marks.length := by
  induction js generalizing marks with
  | nil => rfl
  | cons j js ih =>
    cases h : marks.getD j none with
    | some t => rw [markMerges_cons_skip _ _ _ _ _ _ h]; exact ih marks
    | none =>
      by_cases ht : overlap oi (objs.getD j default) > 0
      · rw [markMerges_cons_mark _ _ _ _ _ h ht]
        rw [ih (marks.set j (some (overlap oi (objs.getD j default))))]
        exact List.length_set ..
      · rw [markMerges_cons_zero _ _ _ _ _ h ht]; exact ih marks

theorem markMerges_notMem (objs : List Obj) (oi : Obj) (marks : List (Option Nat))
    (js : List Nat) (p : Nat) (hp : p ∉ js) :
    (markMerges objs oi marks js).1.getD p none = marks.getD p none := by
  induction js generalizing marks with
  | nil => rfl
  | cons j js ih =>
    have hpj : p ≠ j := fun h => hp (h ▸ List.mem_cons_self j js)
    have hpl : p ∉ js := fun h => hp (List.mem_cons_of_mem j h)
    cases h : marks.getD j none with
    | some t => rw [markMerges_cons_skip _ _ _ _ _ _ h]; exact ih marks hpl
    | none =>
      by_cases ht : overlap oi (objs.getD j default) > 0
      · rw [markMerges_cons_mark _ _ _ _ _ h ht]
        rw [ih _ hpl, getD_set_ne _ _ _ _ hpj]
      · rw [markMerges_cons_zero _ _ _ _ _ h ht]; exact ih marks hpl

theorem markMerges_mono (objs : List Obj) (oi : Obj) (marks : List (Option Nat))
    (js : List Nat) (p : Nat) (t : Nat) (hp : marks.getD p none = some t) :
    (markMerges objs oi marks js).1.getD p none = some t := by
  induction js generalizing marks with
  | nil => exact hp
  | cons j js ih =>
    cases h : marks.getD j none with
    | some u => rw [markMerges_cons_skip _ _ _ _ _ _ h]; exact ih marks hp
    | none =>
      by_cases ht : overlap oi (objs.getD j default) > 0
      · rw [markMerges_cons_mark _ _ _ _ _ h ht]
        have hpj : p ≠ j := fun he => by rw [he, h] at hp; exact Option.noConfusion hp
        exact ih _ (by rw [getD_set_ne _ _ _ _ hpj]; exact hp)
      · rw [markMerges_cons_zero _ _ _ _ _ h ht]; exact ih marks hp

theorem markMerges_count (objs : List Obj) (oi : Obj) (marks : List (Option Nat))
    (js : List Nat) (hjs : ∀ j ∈ js, j < marks.length) :
    countSome (markMerges objs oi marks js).1 =
      countSome marks + (markMerges objs oi marks js).2.length := by
  induction js generalizing marks with
  | nil => simp [markMerges]
  | cons j js ih =>
    have hj : j < marks.length := hjs j (List.mem_cons_self j js)
    have hjs2 : ∀ a ∈ js, a < marks.length := fun a ha => hjs a (List.mem_cons_of_mem j ha)
    cases h : marks.getD j none with
    | some t => rw [markMerges_cons_skip _ _ _ _ _ _ h]; exact ih marks hjs2
    | none =>
      by_cases ht : overlap oi (objs.getD j default) > 0
      · rw [markMerges_cons_mark _ _ _ _ _ h ht]
        have hlen : ∀ a ∈ js,
            a < (marks.set j (some (overlap oi (objs.getD j default)))).length := by
          intro a ha; rw [List.length_set]; exact hjs2 a ha
        have := ih (marks.set j (some (overlap oi (objs.getD j default)))) hlen
        rw [this, countSome_set marks j _ hj h]
        simp only [List.length_cons]
        omega
      · rw [markMerges_cons_zero _ _ _ _ _ h ht]; exact ih marks hjs2

theorem markMerges_absorbed (objs : List Obj) (oi : Obj) (marks : List (Option Nat))
    (js : List Nat) (hjs : ∀ a ∈ js, a < marks.length) (j : Nat)
    (hj : j ∈ (markMerges objs oi marks js).2) :
    j ∈ js ∧
    (markMerges objs oi marks js).1.getD j none =
      some (overlap oi (objs.getD j default)) ∧
    0 < overlap oi (objs.getD j default) := by
  induction js generalizing marks with
  | nil => simp [markMerges] at hj
  | cons a js ih =>
    have ha : a < marks.length := hjs a (List.mem_cons_self a js)
    have hjs2 : ∀ b ∈ js, b < marks.length := fun b hb => hjs b (List.mem_cons_of_mem a hb)
    cases h : marks.getD a none with
    | some t =>
      rw [markMerges_cons_skip _ _ _ _ _ _ h] at hj ⊢
      rcases ih marks hjs2 hj with ⟨h1, h2, h3⟩
      exact ⟨List.mem_cons_of_mem a h1, h2, h3⟩
    | none =>
      by_cases ht : overlap oi (objs.getD a default) > 0
      · rw [markMerges_cons_mark _ _ _ _ _ h ht] at hj ⊢
        simp only at hj
        rcases List.mem_cons.mp hj with he | hm
        · subst he
          refine ⟨List.mem_cons_self j js, ?_, ht⟩
          simp only
          exact markMerges_mono objs oi _ js j _ (getD_set_self marks j _ ha)
        · have hlen : ∀ b ∈ js,
              b < (marks.set a (some (overlap oi (objs.getD a default)))).length := by
            intro b hb; rw [List.length_set]; exact hjs2 b hb
          rcases ih _ hlen hm with ⟨h1, h2, h3⟩
          exact ⟨List.mem_cons_of_mem a h1, h2, h3⟩
      · rw [markMerges_cons_zero _ _ _ _ _ h ht] at hj ⊢
        rcases ih marks hjs2 hj with ⟨h1, h2, h3⟩
        exact ⟨List.mem_cons_of_mem a h1, h2, h3⟩

/-! ### The outer marking loop -/

theorem markOuter_cons_skip (objs : List Obj) (marks : List (Option Nat))
    (i : Nat) (is : List Nat) (t : Nat) (h : marks.getD i none = some t) :
    markOuter objs marks (i :: is) = markOuter objs marks is := by
  simp only [markOuter, h]

theorem markOuter_cons_seed (objs : List Obj) (marks : List (Option Nat))
    (i : Nat) (is : List Nat) (h : marks.getD i none = none) :
    markOuter objs marks (i :: is) =
      ((markOuter objs
          (markMerges objs (objs.getD i default) marks
            (List.range' (i + 1) (objs.length - (i + 1)))).1 is).1,
       (i, (markMerges objs (objs.getD i default) marks
            (List.range' (i + 1) (objs.length - (i + 1)))).2) ::
       (markOuter objs
          (markMerges objs (objs.getD i default) marks
            (List.range' (i + 1) (objs.length - (i + 1)))).1 is).2) := by
  simp only [markOuter, h]

theorem markOuter_length (objs : List Obj) (marks : List (Option Nat))
    (is : List Nat) : (markOuter objs marks is).1.length = marks.length := by
  induction is generalizing marks with
  | nil => rfl
  | cons i is ih =>
    cases h : marks.getD i none with
    | some t => rw [markOuter_cons_skip _ _ _ _ _ h]; exact ih marks
    | none =>
      rw [markOuter_cons_seed _ _ _ _ h]
      simp only
      rw [ih, markMerges_length]

theorem markOuter_mono (objs : List Obj) (marks : List (Option Nat))
    (is : List Nat) (p : Nat) (t : Nat) (hp : marks.getD p none = some t) :
    (markOuter objs marks is).1.getD p none = some t := by
  induction is generalizing marks with
  | nil => exact hp
  | cons i is ih =>
    cases h : marks.getD i none with
    | some u => rw [markOuter_cons_skip _ _ _ _ _ h]; exact ih marks hp
    | none =>
      rw [markOuter_cons_seed _ _ _ _ h]
      exact ih _ (markMerges_mono _ _ _ _ _ _ hp)

theorem markOuter_le_unchanged (objs : List Obj) (marks : List (Option Nat))
    (is : List Nat) (p : Nat) (hp : ∀ i ∈ is, p ≤ i) :
    (markOuter objs marks is).1.getD p none = marks.getD p none := by
  induction is generalizing marks with
  | nil => rfl
  | cons i is ih =>
    have hpi : p ≤ i := hp i (List.mem_cons_self i is)
    have hps : ∀ a ∈ is, p ≤ a := fun a ha => hp a (List.mem_cons_of_mem i ha)
    cases h : marks.getD i none with
    | some u => rw [markOuter_cons_skip _ _ _ _ _ h]; exact ih marks hps
    | none =>
      rw [markOuter_cons_seed _ _ _ _ h]
      simp only
      rw [ih _ hps, markMerges_notMem]
      intro hmem
      rcases List.mem_range'_1.mp hmem with ⟨h1, _⟩
      omega

theorem markOuter_count (objs : List Obj) (marks : List (Option Nat))
    (is : List Nat) (hlen : marks.length = objs.length) :
    countSome (markOuter objs marks is).1 =
      countSome marks + ((markOuter objs marks is).2.map (fun p => p.2.length)).sum := by
  induction is generalizing marks with
  | nil => simp [markOuter]
  | cons i is ih =>
    cases h : marks.getD i none with
    | some t =>
      rw [markOuter_cons_skip _ _ _ _ _ h]; exact ih marks hlen
    | none =>
      rw [markOuter_cons_seed _ _ _ _ h]
      simp only [List.map_cons, List.sum_cons]
      have hjs : ∀ j ∈ List.range' (i + 1) (objs.length - (i + 1)), j < marks.length := by
        intro j hj
        rcases List.mem_range'_1.mp hj with ⟨h1, h2⟩
        omega
      have hlen2 : (markMerges objs (objs.getD i default) marks
          (List.range' (i + 1) (objs.length - (i + 1)))).1.length = objs.length := by
        rw [markMerges_length]; exact hlen
      rw [ih _ hlen2, markMerges_count _ _ _ _ hjs]
      omega

theorem markOuter_seed_count (objs : List Obj) (m : Nat) :
    ∀ (k : Nat) (marks : List (Option Nat)),
    (markOuter objs marks (List.range' k m)).2.length =
      (List.range' k m).countP
        (fun i => ((markOuter objs marks (List.range' k m)).1.getD i none).isNone) := by
  induction m with
  | zero => intro k marks; rfl
  | succ m ih =>
    intro k marks
    rw [List.range'_succ]
    cases h : marks.getD k none with
    | some t =>
      rw [markOuter_cons_skip _ _ _ _ _ h]
      have hk : (markOuter objs marks (List.range' (k + 1) m)).1.getD k none = some t :=
        markOuter_mono _ _ _ _ _ h
      rw [List.countP_cons]
      have : ((markOuter objs marks (List.range' (k + 1) m)).1.getD k none).isNone = false := by
        rw [hk]; rfl
      rw [this]
      simp only [if_neg (by simp : ¬ (false = true))]
      exact ih (k + 1) marks
    | none =>
      rw [markOuter_cons_seed _ _ _ _ h]
      simp only [List.length_cons, List.countP_cons]
      have hfin : ((markOuter objs
          (markMerges objs (objs.getD k default) marks
            (List.range' (k + 1) (objs.length - (k + 1)))).1
          (List.range' (k + 1) m)).1.getD k none) = none := by
        rw [markOuter_le_unchanged]
        · rw [markMerges_notMem]
          · exact h
          · intro hmem
            rcases List.mem_range'_1.mp hmem with ⟨h1, _⟩
            omega
        · intro a ha
          rcases List.mem_range'_1.mp ha with ⟨h1, _⟩
          omega
      rw [hfin]
      rw [ih (k + 1) _]
      simp

theorem markOuter_absorbed (objs : List Obj) (is : List Nat) :
    ∀ (marks : List (Option Nat)), marks.length = objs.length →
    ∀ i js, (i, js) ∈ (markOuter objs marks is).2 → ∀ j ∈ js,
    (markOuter objs marks is).1.getD j none =
      some (overlap (objs.getD i default) (objs.getD j default)) ∧
    0 < overlap (objs.getD i default) (objs.getD j default) ∧
    i + 1 ≤ j ∧ j < objs.length := by
  induction is with
  | nil => intro marks _ i js hmem; simp [markOuter] at hmem
  | cons a is ih =>
    intro marks hlen i js hmem j hj
    cases h : marks.getD a none with
    | some t =>
      rw [markOuter_cons_skip _ _ _ _ _ h] at hmem ⊢
      exact ih marks hlen i js hmem j hj
    | none =>
      rw [markOuter_cons_seed _ _ _ _ h] at hmem ⊢
      simp only [List.mem_cons] at hmem
      have hjslt : ∀ b ∈ List.range' (a + 1) (objs.length - (a + 1)), b < marks.length := by
        intro b hb
        rcases List.mem_range'_1.mp hb with ⟨h1, h2⟩
        omega
      have hlen2 : (markMerges objs (objs.getD a default) marks
          (List.range' (a + 1) (objs.length - (a + 1)))).1.length = objs.length := by
        rw [markMerges_length]; exact hlen
      rcases hmem with he | hm
      · have hi : i = a := congrArg Prod.fst he
        have hjs : js = (markMerges objs (objs.getD a default) marks
            (List.range' (a + 1) (objs.length - (a + 1)))).2 := congrArg Prod.snd he
        subst hi
        rw [hjs] at hj
        rcases markMerges_absorbed objs _ marks _ hjslt j hj with ⟨h1, h2, h3⟩
        rcases List.mem_range'_1.mp h1 with ⟨h4, h5⟩
        refine ⟨?_, h3, h4, by omega⟩
        simp only
        exact markOuter_mono _ _ _ _ _ h2
      · exact ih _ hlen2 i js hm j hj

/-! ### Counting none positions over an index range -/

theorem countNone_shift (a : Option Nat) (l : List (Option Nat)) (m : Nat) :
    ∀ s : Nat, (List.range' (s + 1) m).countP (fun i => ((a :: l).getD i none).isNone) =
    (List.range' s m).countP (fun i => (l.getD i none).isNone) := by
  induction m with
  | zero => intro s; rfl
  | succ m ih =>
    intro s
    rw [List.range'_succ, List.range'_succ, List.countP_cons, List.countP_cons]
    rw [ih (s + 1)]
    simp only [List.getD_cons_succ]

theorem countNone_total (l : List (Option Nat)) :
    (List.range' 0 l.length).countP (fun i => (l.getD i none).isNone) + countSome l =
      l.length := by
  induction l with
  | nil => rfl
  | cons a l ih =>
    rw [List.length_cons, List.range'_succ, List.countP_cons]
    rw [countNone_shift a l l.length 0]
    have hc : countSome (a :: l) = countSome l + (if a.isSome then 1 else 0) := by
      simp [countSome, List.countP_cons]
    rw [hc]
    cases a with
    | none => simp at ih ⊢; omega
    | some t => simp at ih ⊢; omega

/-- Claim C1.  For every image, after `merge_duplicate_boxes` runs, the sum
over surviving objects of the length of their `ids` lists equals the
image's object count before merging (the script's
`assert merged_num_obj == num_obj`): every original object is accounted
for exactly once, as a surviving seed or as an absorbed partner. -/
theorem merge_conserves_ids (objs : List Obj) :
    ((merge_duplicate_boxes_img objs).map (fun o => o.ids.length)).sum = objs.length := by
  unfold merge_duplicate_boxes_img
  simp only [List.map_map]
  have hids : ∀ p : Nat × List Nat,
      ((fun o => o.ids.length) ∘ fun p =>
        mergeSeed objs (markOuter objs (List.replicate objs.length none)
          (List.range objs.length)).1 p.1 p.2) p = p.2.length + 1 := by
    intro p
    simp [mergeSeed]
  rw [List.map_congr_left (fun p _ => hids p)]
  have hsum : ∀ l : List (Nat × List Nat),
      (l.map (fun p => p.2.length + 1)).sum = (l.map (fun p => p.2.length)).sum + l.length := by
    intro l
    induction l with
    | nil => rfl
    | cons x l ihl => simp [List.sum_cons, ihl]; omega
  rw [hsum]
  have hlen : (List.replicate objs.length (none : Option Nat)).length = objs.length :=
    List.length_replicate ..
  have hcount := markOuter_count objs (List.replicate objs.length none)
    (List.range objs.length) hlen
  rw [countSome_replicate, Nat.zero_add] at hcount
  have hseed := markOuter_seed_count objs objs.length 0 (List.replicate objs.length none)
  rw [← List.range_eq_range'] at hseed
  have htot := countNone_total
    (markOuter objs (List.replicate objs.length none) (List.range objs.length)).1
  have hlenfin : (markOuter objs (List.replicate objs.length none)
      (List.range objs.length)).1.length = objs.length := by
    rw [markOuter_length]; exact hlen
  rw [hlenfin, ← List.range_eq_range', ← hseed] at htot
  omega

/-! ### The merged box geometry (claim about union and mean) -/

theorem truncQ_intCast (n : Int) : truncQ ((n : Int) : ℚ) = n := by
  unfold truncQ
  rw [Rat.intCast_num, Rat.intCast_den]
  exact Int.tdiv_one n

theorem truncQ_div (n : Int) (d : Nat) (h : d ≠ 0) (c : n.natAbs.Coprime d) :
    truncQ ((n : ℚ) / (d : ℚ)) = n.tdiv d := by
  have he : ((n : ℚ) / (d : ℚ)) = (⟨n, d, h, c⟩ : ℚ) := by
    rw [Rat.mk'_eq_divInt, Rat.divInt_eq_div]
    norm_num
  rw [he]
  rfl

theorem foldl_max_ge (g : Nat → Nat) (js : List Nat) :
    ∀ init : Nat, init ≤ js.foldl (fun p j => if g j > p then g j else p) init := by
  induction js with
  | nil => intro init; exact Nat.le_refl init
  | cons j js ih =>
    intro init
    rw [List.foldl_cons]
    by_cases h : g j > init
    · rw [if_pos h]
      exact Nat.le_trans (Nat.le_of_lt h) (ih (g j))
    · rw [if_neg h]
      exact ih init

theorem foldl_max_mem (g : Nat → Nat) (js : List Nat) (j : Nat) (hj : j ∈ js) :
    ∀ init : Nat, g j ≤ js.foldl (fun p a => if g a > p then g a else p) init := by
  induction js with
  | nil => exact absurd hj (List.not_mem_nil j)
  | cons a js ih =>
    intro init
    rw [List.foldl_cons]
    rcases List.mem_cons.mp hj with he | hm
    · subst he
      by_cases h : g j > init
      · rw [if_pos h]; exact foldl_max_ge g js (g j)
      · rw [if_neg h]
        exact Nat.le_trans (Nat.le_of_not_lt h) (foldl_max_ge g js init)
    · by_cases h : g a > init
      · rw [if_pos h]; exact ih hm (g a)
      · rw [if_neg h]; exact ih hm init

theorem foldl_max_cases (g : Nat → Nat) (js : List Nat) :
    ∀ init : Nat, js.foldl (fun p j => if g j > p then g j else p) init = init ∨
      ∃ j ∈ js, js.foldl (fun p j => if g j > p then g j else p) init = g j := by
  induction js with
  | nil => intro init; exact Or.inl rfl
  | cons a js ih =>
    intro init
    rw [List.foldl_cons]
    by_cases h : g a > init
    · rw [if_pos h]
      rcases ih (g a) with he | ⟨j, hj, hje⟩
      · exact Or.inr ⟨a, List.mem_cons_self a js, he⟩
      · exact Or.inr ⟨j, List.mem_cons_of_mem a hj, hje⟩
    · rw [if_neg h]
      rcases ih init with he | ⟨j, hj, hje⟩
      · exact Or.inl he
      · exact Or.inr ⟨j, List.mem_cons_of_mem a hj, hje⟩

/-- Claim C7, amended.  For every surviving merge group: when some
absorbed partner was classified Containment (2) or
High-overlap-same-label (3) — equivalently, when the maximum category
among absorbed partners is 2 or 3 — the surviving object's rectangle is
exactly the bounding union of the seed's and all absorbed partners'
rectangles; when every absorbed partner was classified Identical (1),
the stored `x`, `y` are the `int()`-truncations of the coordinate-wise
mean corner and the stored `w`, `h` the truncations of the differences
of the mean corners (the mean itself need not be integral, see the
counterexample `merge_mean_truncates`). -/
theorem merge_box_union_or_mean (objs : List Obj) (i : Nat) (js : List Nat)
    (hmem : (i, js) ∈ mergeAssignment objs) :
    mergeSeed objs (mergeMarks objs) i js ∈ merge_duplicate_boxes_img objs ∧
    ((∃ j ∈ js, (mergeMarks objs).getD j none = some 2 ∨
        (mergeMarks objs).getD j none = some 3) →
      (mergeSeed objs (mergeMarks objs) i js).x =
        (unionRect (to_x1y1x2y2 (objs.getD i default))
          (js.map (fun j => to_x1y1x2y2 (objs.getD j default)))).x1 ∧
      (mergeSeed objs (mergeMarks objs) i js).y =
        (unionRect (to_x1y1x2y2 (objs.getD i default))
          (js.map (fun j => to_x1y1x2y2 (objs.getD j default)))).y1 ∧
      (mergeSeed objs (mergeMarks objs) i js).x + (mergeSeed objs (mergeMarks objs) i js).w =
        (unionRect (to_x1y1x2y2 (objs.getD i default))
          (js.map (fun j => to_x1y1x2y2 (objs.getD j default)))).x2 ∧
      (mergeSeed objs (mergeMarks objs) i js).y + (mergeSeed objs (mergeMarks objs) i js).h =
        (unionRect (to_x1y1x2y2 (objs.getD i default))
          (js.map (fun j => to_x1y1x2y2 (objs.getD j default)))).y2) ∧
    ((∀ j ∈ js, (mergeMarks objs).getD j none = some 1) →
      (mergeSeed objs (mergeMarks objs) i js).x =
        truncQ (meanQ (to_x1y1x2y2 (objs.getD i default))
          (js.map (fun j => to_x1y1x2y2 (objs.getD j default)))).1 ∧
      (mergeSeed objs (mergeMarks objs) i js).y =
        truncQ (meanQ (to_x1y1x2y2 (objs.getD i default))
          (js.map (fun j => to_x1y1x2y2 (objs.getD j default)))).2.1 ∧
      (mergeSeed objs (mergeMarks objs) i js).w =
        truncQ ((meanQ (to_x1y1x2y2 (objs.getD i default))
          (js.map (fun j => to_x1y1x2y2 (objs.getD j default)))).2.2.1 -
          (meanQ (to_x1y1x2y2 (objs.getD i default))
            (js.map (fun j => to_x1y1x2y2 (objs.getD j default)))).1) ∧
      (mergeSeed objs (mergeMarks objs) i js).h =
        truncQ ((meanQ (to_x1y1x2y2 (objs.getD i default))
          (js.map (fun j => to_x1y1x2y2 (objs.getD j default)))).2.2.2 -
          (meanQ (to_x1y1x2y2 (objs.getD i default))
            (js.map (fun j => to_x1y1x2y2 (objs.getD j default)))).2.1)) := by
  refine ⟨?_, ?_, ?_⟩
  · unfold merge_duplicate_boxes_img
    exact List.mem_map_of_mem _ hmem
  · rintro ⟨j, hj, hc⟩
    have hge : 2 ≤ ((mergeMarks objs).getD j none).getD 0 := by
      rcases hc with h | h <;> rw [h] <;> decide
    have hprom : 1 < js.foldl
        (fun p j => if ((mergeMarks objs).getD j none).getD 0 > p
          then ((mergeMarks objs).getD j none).getD 0 else p) 1 := by
      have := foldl_max_mem (fun j => ((mergeMarks objs).getD j none).getD 0) js j hj 1
      omega
    simp only [mergeSeed]
    rw [if_pos hprom]
    set u := unionRect (to_x1y1x2y2 (objs.getD i default))
      (js.map (fun j => to_x1y1x2y2 (objs.getD j default)))
    have hcx : ((u.x2 : ℚ) - (u.x1 : ℚ)) = ((u.x2 - u.x1 : Int) : ℚ) := by push_cast; ring
    have hcy : ((u.y2 : ℚ) - (u.y1 : ℚ)) = ((u.y2 - u.y1 : Int) : ℚ) := by push_cast; ring
    refine ⟨truncQ_intCast _, truncQ_intCast _, ?_, ?_⟩
    · show truncQ ((u.x1 : ℚ)) + truncQ ((u.x2 : ℚ) - (u.x1 : ℚ)) = u.x2
      rw [truncQ_intCast, hcx, truncQ_intCast]
      ring
    · show truncQ ((u.y1 : ℚ)) + truncQ ((u.y2 : ℚ) - (u.y1 : ℚ)) = u.y2
      rw [truncQ_intCast, hcy, truncQ_intCast]
      ring
  · intro hall
    have hprom : js.foldl
        (fun p j => if ((mergeMarks objs).getD j none).getD 0 > p
          then ((mergeMarks objs).getD j none).getD 0 else p) 1 = 1 := by
      rcases foldl_max_cases (fun j => ((mergeMarks objs).getD j none).getD 0) js 1
        with he | ⟨j, hj, hje⟩
      · exact he
      · rw [hje, hall j hj]
        rfl
    simp only [mergeSeed]
    rw [hprom]
    rw [if_neg (by omega : ¬ (1 : Nat) > 1)]
    exact ⟨rfl, rfl, rfl, rfl⟩

/-! ### Concrete evaluations of the merge engine -/

theorem IoU_AB : IoU (to_x1y1x2y2 exObjA) (to_x1y1x2y2 exObjB) = 10/11 := by
  norm_num [IoU, to_x1y1x2y2, exObjA, exObjB]

theorem overlap_AB : overlap exObjA exObjB = 1 := by
  unfold overlap
  rw [if_pos (Or.inr (by rw [IoU_AB]; norm_num))]

theorem overlap_AC : overlap exObjA exObjC = 2 := by
  unfold overlap
  rw [if_neg, if_pos]
  · constructor
    · exact Or.inr (by norm_num [inside, to_x1y1x2y2, exObjA, exObjC])
    · rfl
  · norm_num [IoU, to_x1y1x2y2, exObjA, exObjC]

theorem markOuter_AB :
    markOuter [exObjA, exObjB] (List.replicate ([exObjA, exObjB] : List Obj).length none)
      (List.range ([exObjA, exObjB] : List Obj).length) = ([none, some 1], [(0, [1])]) := by
  show markOuter [exObjA, exObjB] (List.replicate 2 none) (List.range 2) = _
  simp [markOuter, markMerges, overlap_AB, List.range_succ]

theorem markOuter_AC :
    markOuter [exObjA, exObjC] (List.replicate ([exObjA, exObjC] : List Obj).length none)
      (List.range ([exObjA, exObjC] : List Obj).length) = ([none, some 2], [(0, [1])]) := by
  show markOuter [exObjA, exObjC] (List.replicate 2 none) (List.range 2) = _
  simp [markOuter, markMerges, overlap_AC, List.range_succ]

theorem mergeAssignment_AB : mergeAssignment [exObjA, exObjB] = [(0, [1])] := by
  unfold mergeAssignment
  rw [markOuter_AB]

theorem mergeMarks_AB : mergeMarks [exObjA, exObjB] = [none, some 1] := by
  unfold mergeMarks
  rw [markOuter_AB]

theorem mergeAssignment_AC : mergeAssignment [exObjA, exObjC] = [(0, [1])] := by
  unfold mergeAssignment
  rw [markOuter_AC]

theorem mergeMarks_AC : mergeMarks [exObjA, exObjC] = [none, some 2] := by
  unfold mergeMarks
  rw [markOuter_AC]

theorem mean_AB :
    meanQ (to_x1y1x2y2 exObjA) [to_x1y1x2y2 exObjB] = (0, 0, 10, 21/2) := by
  norm_num [meanQ, to_x1y1x2y2, exObjA, exObjB]

/-- Claim C7, counterexample.  In the image `[exObjA, exObjB]` the absorbed
box is classified Identical (category 1, via IoU 10/11 > 0.9), and the
coordinate-wise mean of the two contributing rectangles is
`(0, 0, 10, 21/2)`; yet the surviving object's bottom edge `y + h` is
`10`, not the mean value `21/2`: the final rectangle is not the
coordinate-wise mean, because `int()` truncates each stored value. -/
theorem merge_mean_truncates :
    mergeAssignment [exObjA, exObjB] = [(0, [1])] ∧
    (mergeMarks [exObjA, exObjB]).getD 1 none = some 1 ∧
    meanQ (to_x1y1x2y2 exObjA) [to_x1y1x2y2 exObjB] = (0, 0, 10, 21/2) ∧
    (merge_duplicate_boxes_img [exObjA, exObjB]).map
      (fun o => (o.y : ℚ) + (o.h : ℚ)) = [10] ∧
    ((10 : ℚ) ≠ 21/2) := by
  refine ⟨mergeAssignment_AB, by rw [mergeMarks_AB]; rfl, mean_AB, ?_, by norm_num⟩
  unfold merge_duplicate_boxes_img
  rw [markOuter_AB]
  simp only [List.map_cons, List.map_nil, List.cons.injEq, and_true]
  have hy : (mergeSeed [exObjA, exObjB] [none, some 1] 0 [1]).y = 0 ∧
      (mergeSeed [exObjA, exObjB] [none, some 1] 0 [1]).h = 10 := by
    unfold mergeSeed
    simp only [List.getD_cons_zero, List.getD_cons_succ, List.foldl_cons, List.foldl_nil,
      List.map_cons, List.map_nil, Option.getD_some]
    rw [if_neg (by omega : ¬ (1 : Nat) > 1)]
    rw [if_neg (by omega : ¬ (1 : Nat) > 1)]
    rw [mean_AB]
    constructor
    · show truncQ ((0 : ℚ)) = 0
      rw [show (0 : ℚ) = ((0 : Int) : ℚ) by norm_num]
      exact truncQ_intCast 0
    · show truncQ ((21 : ℚ)/2 - 0) = 10
      rw [show ((21 : ℚ)/2 - 0) = ((21 : Int) : ℚ) / ((2 : Nat) : ℚ) by norm_num]
      rw [truncQ_div 21 2 (by norm_num) (by norm_num)]
      decide
  rw [hy.1, hy.2]
  norm_num

/-- Witness for the amended C7 at a concrete Containment merge: in the
image `[exObjA, exObjC]` the absorbed box is classified 2 and the
surviving box starts at the bounding union's left edge. -/
theorem merge_box_union_witness :
    mergeSeed [exObjA, exObjC] (mergeMarks [exObjA, exObjC]) 0 [1] ∈
      merge_duplicate_boxes_img [exObjA, exObjC] ∧
    (mergeSeed [exObjA, exObjC] (mergeMarks [exObjA, exObjC]) 0 [1]).x =
      (unionRect (to_x1y1x2y2 (([exObjA, exObjC] : List Obj).getD 0 default))
        (([1] : List Nat).map
          (fun j => to_x1y1x2y2 (([exObjA, exObjC] : List Obj).getD j default)))).x1 := by
  have hasg : (0, [1]) ∈ mergeAssignment [exObjA, exObjC] := by
    rw [mergeAssignment_AC]
    exact List.mem_singleton.mpr rfl
  have h := merge_box_union_or_mean [exObjA, exObjC] 0 [1] hasg
  refine ⟨h.1, ?_⟩
  have hb := h.2.1 ⟨1, List.mem_singleton.mpr rfl, Or.inl (by rw [mergeMarks_AC]; rfl)⟩
  exact hb.1

/-! ### Box geometry encoding (clamping and positivity) -/

theorem clampBox_bounds (x0 y0 w0 h0 sz : Int) (hsz : 2 ≤ sz) :
    0 ≤ (clampBox x0 y0 w0 h0 sz).1 ∧ (clampBox x0 y0 w0 h0 sz).1 ≤ sz - 2 ∧
    0 ≤ (clampBox x0 y0 w0 h0 sz).2.1 ∧ (clampBox x0 y0 w0 h0 sz).2.1 ≤ sz - 2 ∧
    (clampBox x0 y0 w0 h0 sz).1 + (clampBox x0 y0 w0 h0 sz).2.2.1 ≤ sz ∧
    (clampBox x0 y0 w0 h0 sz).2.1 + (clampBox x0 y0 w0 h0 sz).2.2.2 ≤ sz := by
  simp only [clampBox]
  split_ifs <;> refine ⟨by omega, by omega, by omega, by omega, by omega, by omega⟩

theorem clampBox_pos (x0 y0 w0 h0 sz : Int) (hsz : 4 ≤ sz)
    (hw : 0 < w0) (hh : 0 < h0) :
    0 < (clampBox x0 y0 w0 h0 sz).2.2.1 ∧ 0 < (clampBox x0 y0 w0 h0 sz).2.2.2 := by
  simp only [clampBox]
  split_ifs <;> refine ⟨by omega, by omega⟩

/-- Claim C6.  For every input box with strictly positive width and
height, strictly positive original image dimensions, and every target
long side of at least 4, the encoded width and height (components 3 and
4 of `encode_box`) are strictly positive: the two assertions at the end
of `encode_box` never fail under these preconditions. -/
theorem encode_box_positive (x y w h org_h org_w sz : Int)
    (hw : 0 < w) (hh : 0 < h) (hoh : 0 < org_h) (_how : 0 < org_w) (hsz : 4 ≤ sz) :
    0 < (encode_box x y w h org_h org_w sz).2.2.1 ∧
    0 < (encode_box x y w h org_h org_w sz).2.2.2 := by
  have hscale : (0 : ℚ) < (sz : ℚ) / ((max org_h org_w : Int) : ℚ) := by
    apply div_pos
    · exact_mod_cast (by omega : (0 : Int) < sz)
    · exact_mod_cast lt_max_of_lt_left hoh
  have hw0 : 0 < ⌈((sz : ℚ) / ((max org_h org_w : Int) : ℚ)) * (w : ℚ)⌉ :=
    Int.ceil_pos.mpr (mul_pos hscale (by exact_mod_cast hw))
  have hh0 : 0 < ⌈((sz : ℚ) / ((max org_h org_w : Int) : ℚ)) * (h : ℚ)⌉ :=
    Int.ceil_pos.mpr (mul_pos hscale (by exact_mod_cast hh))
  simp only [encode_box, scaleBox]
  exact clampBox_pos _ _ _ _ sz hsz hw0 hh0

/-- Witness for C6 at a concrete input. -/
theorem encode_box_positive_witness :
    0 < (encode_box 1 1 100 100 100 100 8).2.2.1 ∧
    0 < (encode_box 1 1 100 100 100 100 8).2.2.2 :=
  encode_box_positive 1 1 100 100 100 100 8 (by norm_num) (by norm_num)
    (by norm_num) (by norm_num) (by norm_num)

/-- Claim C8, amended.  For every input box and every target size of at
least 2, after the clamping step of `encode_box` the position lies in
`[0, target - 2]` in each axis and position plus extent is at most the
target size in each axis (the clamp sets the extent to `target -
position` when `position + extent ≥ target`, so equality is attained;
strict inequality, as originally claimed, fails — see the
counterexample). -/
theorem encode_box_clamp_bounds (x y w h org_h org_w sz : Int) (hsz : 2 ≤ sz) :
    0 ≤ (clampBox (scaleBox x y w h org_h org_w sz).1 (scaleBox x y w h org_h org_w sz).2.1
          (scaleBox x y w h org_h org_w sz).2.2.1 (scaleBox x y w h org_h org_w sz).2.2.2 sz).1 ∧
    (clampBox (scaleBox x y w h org_h org_w sz).1 (scaleBox x y w h org_h org_w sz).2.1
      (scaleBox x y w h org_h org_w sz).2.2.1 (scaleBox x y w h org_h org_w sz).2.2.2 sz).1 ≤ sz - 2 ∧
    0 ≤ (clampBox (scaleBox x y w h org_h org_w sz).1 (scaleBox x y w h org_h org_w sz).2.1
          (scaleBox x y w h org_h org_w sz).2.2.1 (scaleBox x y w h org_h org_w sz).2.2.2 sz).2.1 ∧
    (clampBox (scaleBox x y w h org_h org_w sz).1 (scaleBox x y w h org_h org_w sz).2.1
      (scaleBox x y w h org_h org_w sz).2.2.1 (scaleBox x y w h org_h org_w sz).2.2.2 sz).2.1 ≤ sz - 2 ∧
    (clampBox (scaleBox x y w h org_h org_w sz).1 (scaleBox x y w h org_h org_w sz).2.1
      (scaleBox x y w h org_h org_w sz).2.2.1 (scaleBox x y w h org_h org_w sz).2.2.2 sz).1 +
    (clampBox (scaleBox x y w h org_h org_w sz).1 (scaleBox x y w h org_h org_w sz).2.1
      (scaleBox x y w h org_h org_w sz).2.2.1 (scaleBox x y w h org_h org_w sz).2.2.2 sz).2.2.1 ≤ sz ∧
    (clampBox (scaleBox x y w h org_h org_w sz).1 (scaleBox x y w h org_h org_w sz).2.1
      (scaleBox x y w h org_h org_w sz).2.2.1 (scaleBox x y w h org_h org_w sz).2.2.2 sz).2.1 +
    (clampBox (scaleBox x y w h org_h org_w sz).1 (scaleBox x y w h org_h org_w sz).2.1
      (scaleBox x y w h org_h org_w sz).2.2.1 (scaleBox x y w h org_h org_w sz).2.2.2 sz).2.2.2 ≤ sz :=
  clampBox_bounds _ _ _ _ sz hsz

/-- Concrete value of the scaling step at the counterexample input. -/
theorem scaleBox_example : scaleBox 1 1 100 100 100 100 8 = (0, 0, 8, 8) := by
  unfold scaleBox
  norm_num

/-- Claim C8, counterexample.  At box `(x, y, w, h) = (1, 1, 100, 100)` in a
100 by 100 image with target size 8, the clamped position and extent
satisfy `position + extent = 8 = target`, so `position + extent <
target` fails: the clamp enforces `≤`, not `<`. -/
theorem encode_box_clamp_not_strict :
    scaleBox 1 1 100 100 100 100 8 = (0, 0, 8, 8) ∧
    clampBox 0 0 8 8 8 = (0, 0, 8, 8) ∧
    ¬ ((clampBox (scaleBox 1 1 100 100 100 100 8).1 (scaleBox 1 1 100 100 100 100 8).2.1
          (scaleBox 1 1 100 100 100 100 8).2.2.1 (scaleBox 1 1 100 100 100 100 8).2.2.2 8).1 +
        (clampBox (scaleBox 1 1 100 100 100 100 8).1 (scaleBox 1 1 100 100 100 100 8).2.1
          (scaleBox 1 1 100 100 100 100 8).2.2.1 (scaleBox 1 1 100 100 100 100 8).2.2.2 8).2.2.1 < 8) := by
  refine ⟨scaleBox_example, by decide, ?_⟩
  rw [scaleBox_example]
  decide

/-- Witness for the amended C8 at a concrete input. -/
theorem encode_box_clamp_bounds_witness :
    0 ≤ (clampBox (scaleBox 1 1 100 100 100 100 8).1 (scaleBox 1 1 100 100 100 100 8).2.1
          (scaleBox 1 1 100 100 100 100 8).2.2.1 (scaleBox 1 1 100 100 100 100 8).2.2.2 8).1 ∧
    (clampBox (scaleBox 1 1 100 100 100 100 8).1 (scaleBox 1 1 100 100 100 100 8).2.1
      (scaleBox 1 1 100 100 100 100 8).2.2.1 (scaleBox 1 1 100 100 100 100 8).2.2.2 8).1 ≤ 8 - 2 ∧
    0 ≤ (clampBox (scaleBox 1 1 100 100 100 100 8).1 (scaleBox 1 1 100 100 100 100 8).2.1
          (scaleBox 1 1 100 100 100 100 8).2.2.1 (scaleBox 1 1 100 100 100 100 8).2.2.2 8).2.1 ∧
    (clampBox (scaleBox 1 1 100 100 100 100 8).1 (scaleBox 1 1 100 100 100 100 8).2.1
      (scaleBox 1 1 100 100 100 100 8).2.2.1 (scaleBox 1 1 100 100 100 100 8).2.2.2 8).2.1 ≤ 8 - 2 ∧
    (clampBox (scaleBox 1 1 100 100 100 100 8).1 (scaleBox 1 1 100 100 100 100 8).2.1
      (scaleBox 1 1 100 100 100 100 8).2.2.1 (scaleBox 1 1 100 100 100 100 8).2.2.2 8).1 +
    (clampBox (scaleBox 1 1 100 100 100 100 8).1 (scaleBox 1 1 100 100 100 100 8).2.1
      (scaleBox 1 1 100 100 100 100 8).2.2.1 (scaleBox 1 1 100 100 100 100 8).2.2.2 8).2.2.1 ≤ 8 ∧
    (clampBox (scaleBox 1 1 100 100 100 100 8).1 (scaleBox 1 1 100 100 100 100 8).2.1
      (scaleBox 1 1 100 100 100 100 8).2.2.1 (scaleBox 1 1 100 100 100 100 8).2.2.2 8).2.1 +
    (clampBox (scaleBox 1 1 100 100 100 100 8).1 (scaleBox 1 1 100 100 100 100 8).2.1
      (scaleBox 1 1 100 100 100 100 8).2.2.1 (scaleBox 1 1 100 100 100 100 8).2.2.2 8).2.2.2 ≤ 8 :=
  encode_box_clamp_bounds 1 1 100 100 100 100 8 (by norm_num)

/-! ### Label resolution of `encode_objects` -/

theorem maxCount_le (t2i : String → Option Nat) (cnt : String → Nat)
    (names : List String) (n : String) (hn : n ∈ names) (hv : (t2i n).isSome) :
    cnt n ≤ maxCount t2i cnt names := by
  induction names with
  | nil => exact absurd hn (List.not_mem_nil n)
  | cons a rest ih =>
    rcases List.mem_cons.mp hn with he | hm
    · subst he
      simp only [maxCount, hv, if_pos]
      exact Nat.le_max_left _ _
    · by_cases ha : (t2i a).isSome
      · simp only [maxCount, ha, if_pos]
        exact Nat.le_trans (ih hm) (Nat.le_max_right _ _)
      · simp only [maxCount, ha, if_neg, Bool.false_eq_true]
        exact ih hm

theorem maxCount_attained (t2i : String → Option Nat) (cnt : String → Nat)
    (names : List String) (hpos : maxCount t2i cnt names ≠ 0) :
    ∃ n ∈ names, (t2i n).isSome ∧ cnt n = maxCount t2i cnt names := by
  induction names with
  | nil => exact absurd rfl hpos
  | cons a rest ih =>
    by_cases ha : (t2i a).isSome
    · simp only [maxCount, ha, if_pos] at hpos ⊢
      by_cases hc : maxCount t2i cnt rest ≤ cnt a
      · exact ⟨a, List.mem_cons_self a rest, ha, (Nat.max_eq_left hc).symm⟩
      · have hne : maxCount t2i cnt rest ≠ 0 := by omega
        rcases ih hne with ⟨n, hn, hv, he⟩
        exact ⟨n, List.mem_cons_of_mem a hn, hv,
          by rw [he, Nat.max_eq_right (by omega)]⟩
    · simp only [maxCount, ha, if_neg, Bool.false_eq_true] at hpos ⊢
      rcases ih hpos with ⟨n, hn, hv, he⟩
      exact ⟨n, List.mem_cons_of_mem a hn, hv, he⟩

theorem maxCount_all_none (t2i : String → Option Nat) (cnt : String → Nat)
    (names : List String) (h : ∀ n ∈ names, t2i n = none) :
    maxCount t2i cnt names = 0 := by
  induction names with
  | nil => rfl
  | cons a rest ih =>
    have ha : t2i a = none := h a (List.mem_cons_self a rest)
    simp only [maxCount, ha, Option.isSome_none, Bool.false_eq_true, if_neg]
    exact ih (fun n hn => h n (List.mem_cons_of_mem a hn))

theorem maxCount_cons_pos (t2i : String → Option Nat) (cnt : String → Nat)
    (a : String) (rest : List String) (ha : (t2i a).isSome) :
    maxCount t2i cnt (a :: rest) = max (cnt a) (maxCount t2i cnt rest) := by
  simp [maxCount, ha]

theorem maxCount_cons_neg (t2i : String → Option Nat) (cnt : String → Nat)
    (a : String) (rest : List String) (ha : ¬ (t2i a).isSome) :
    maxCount t2i cnt (a :: rest) = maxCount t2i cnt rest := by
  simp [maxCount, ha]

theorem pickLoop_spec (t2i : String → Option Nat) (cnt : String → Nat) :
    ∀ (names : List String) (m0 : Nat) (lab0 : Option String),
    names.foldl (fun (st : Nat × Option String) name =>
        if (t2i name).isSome ∧ cnt name > st.1 then (cnt name, some name) else st)
        (m0, lab0) =
      (max m0 (maxCount t2i cnt names),
       if maxCount t2i cnt names > m0 then
         names.find? (fun n => (t2i n).isSome && (cnt n == maxCount t2i cnt names))
       else lab0) := by
  intro names
  induction names with
  | nil =>
    intro m0 lab0
    simp [maxCount]
  | cons a rest ih =>
    intro m0 lab0
    rw [List.foldl_cons]
    by_cases ha : (t2i a).isSome
    · rw [maxCount_cons_pos t2i cnt a rest ha]
      by_cases hgt : cnt a > m0
      · rw [if_pos ⟨ha, hgt⟩, ih (cnt a) (some a)]
        by_cases hmr : maxCount t2i cnt rest > cnt a
        · have hmax : max (cnt a) (maxCount t2i cnt rest) = maxCount t2i cnt rest :=
            Nat.max_eq_right (Nat.le_of_lt hmr)
          rw [hmax, if_pos hmr, if_pos (Nat.lt_trans hgt hmr)]
          simp only [Prod.mk.injEq]
          refine ⟨(Nat.max_eq_right (Nat.le_of_lt (Nat.lt_trans hgt hmr))).symm, ?_⟩
          rw [List.find?_cons_of_neg _ (by
            have hne : cnt a ≠ maxCount t2i cnt rest := Nat.ne_of_lt hmr
            simp [ha, hne])]
        · have hmax : max (cnt a) (maxCount t2i cnt rest) = cnt a :=
            Nat.max_eq_left (Nat.le_of_not_lt hmr)
          rw [hmax, if_neg hmr, if_pos hgt]
          simp only [Prod.mk.injEq]
          refine ⟨(Nat.max_eq_right (Nat.le_of_lt hgt)).symm, ?_⟩
          rw [List.find?_cons_of_pos _ (by simp [ha])]
      · rw [if_neg (fun hand => hgt hand.2), ih m0 lab0]
        have hle : cnt a ≤ m0 := Nat.le_of_not_lt hgt
        by_cases hmr : maxCount t2i cnt rest > m0
        · have hmax : max (cnt a) (maxCount t2i cnt rest) = maxCount t2i cnt rest :=
            Nat.max_eq_right (Nat.le_of_lt (Nat.lt_of_le_of_lt hle hmr))
          rw [hmax, if_pos hmr, if_pos hmr]
          simp only [Prod.mk.injEq]
          refine ⟨trivial, ?_⟩
          rw [List.find?_cons_of_neg _ (by
            have hne : cnt a ≠ maxCount t2i cnt rest :=
              Nat.ne_of_lt (Nat.lt_of_le_of_lt hle hmr)
            simp [ha, hne])]
        · have hmr2 : maxCount t2i cnt rest ≤ m0 := Nat.le_of_not_lt hmr
          have hcond : ¬ (max (cnt a) (maxCount t2i cnt rest) > m0) :=
            Nat.not_lt.mpr (Nat.max_le.mpr ⟨hle, hmr2⟩)
          rw [if_neg hmr, if_neg hcond]
          simp only [Prod.mk.injEq]
          refine ⟨?_, trivial⟩
          rw [Nat.max_eq_left hmr2, Nat.max_eq_left (Nat.max_le.mpr ⟨hle, hmr2⟩)]
    · have hfa : (t2i a).isSome = false := by
        cases hh : (t2i a).isSome
        · rfl
        · exact absurd hh ha
      rw [maxCount_cons_neg t2i cnt a rest ha]
      rw [if_neg (fun hand => ha hand.1), ih m0 lab0]
      by_cases hmr : maxCount t2i cnt rest > m0
      · rw [if_pos hmr, if_pos hmr]
        simp only [Prod.mk.injEq]
        refine ⟨trivial, ?_⟩
        rw [List.find?_cons_of_neg _ (by simp [hfa])]
      · rw [if_neg hmr, if_neg hmr]

theorem pickLabel_eq (t2i : String → Option Nat) (cnt : String → Nat)
    (names : List String) :
    pickLabel t2i cnt names =
      if maxCount t2i cnt names > 0 then
        names.find? (fun n => (t2i n).isSome && (cnt n == maxCount t2i cnt names))
      else none := by
  unfold pickLabel
  rw [pickLoop_spec]

/-- Claim C4.  Under the pipeline invariant that every vocabulary token has
a positive corpus count (which `extract_object_token` guarantees, since a
token is kept only after being counted), for every object processed by
`encode_objects`: a resolved label is a name of the object, lies in the
vocabulary, and has the maximum corpus count among the object's
in-vocabulary names; the label is unresolved exactly when every name is
out of vocabulary; and an object with no resolvable label is silently
skipped — deleting it from the image leaves the label list, the box
lists, the id-to-index table and the counter unchanged — while a
resolved object appends exactly its label index, one box per size, and
its id bindings. -/
theorem encode_objects_label_policy (t2i : String → Option Nat) (cnt : String → Nat)
    (hpos : ∀ s, (t2i s).isSome → 0 < cnt s) :
    (∀ names lab, pickLabel t2i cnt names = some lab →
      lab ∈ names ∧ (t2i lab).isSome ∧
      ∀ n ∈ names, (t2i n).isSome → cnt n ≤ cnt lab) ∧
    (∀ names, pickLabel t2i cnt names = none ↔ ∀ n ∈ names, t2i n = none) ∧
    (∀ sizes orgH orgW (pre post : List Obj) (obj : Obj) st,
      (∀ n ∈ obj.names, t2i n = none) →
      encodeImgObjs t2i cnt sizes orgH orgW st (pre ++ obj :: post) =
        encodeImgObjs t2i cnt sizes orgH orgW st (pre ++ post)) ∧
    (∀ sizes orgH orgW (obj : Obj) (rest : List Obj) st lab,
      pickLabel t2i cnt obj.names = some lab →
      encodeImgObjs t2i cnt sizes orgH orgW st (obj :: rest) =
        encodeImgObjs t2i cnt sizes orgH orgW
          { labels := st.labels ++ [(t2i lab).getD 0]
            boxes := List.zipWith
              (fun sz bl => bl ++ [encode_box obj.x obj.y obj.w obj.h orgH orgW sz])
              sizes st.boxes
            table := obj.ids.foldl (fun tb oid => (oid, st.ctr) :: tb) st.table
            ctr := st.ctr + 1 } rest) := by
  have hnone : ∀ names, (∀ n ∈ names, t2i n = none) → pickLabel t2i cnt names = none := by
    intro names hall
    rw [pickLabel_eq, if_neg (by rw [maxCount_all_none t2i cnt names hall]; omega)]
  refine ⟨?_, ?_, ?_, ?_⟩
  · intro names lab hsome
    rw [pickLabel_eq] at hsome
    by_cases hm : maxCount t2i cnt names > 0
    · rw [if_pos hm] at hsome
      have hmem := List.mem_of_find?_eq_some hsome
      have hpred := List.find?_some hsome
      simp only [Bool.and_eq_true, beq_iff_eq] at hpred
      refine ⟨hmem, hpred.1, ?_⟩
      intro n hn hv
      rw [hpred.2]
      exact maxCount_le t2i cnt names n hn hv
    · rw [if_neg hm] at hsome
      exact Option.noConfusion hsome
  · intro names
    constructor
    · intro hn n hmem
      by_contra hne
      have hv : (t2i n).isSome := Option.isSome_iff_ne_none.mpr hne
      have h1 : 0 < cnt n := hpos n hv
      have h2 : 0 < maxCount t2i cnt names :=
        Nat.lt_of_lt_of_le h1 (maxCount_le t2i cnt names n hmem hv)
      rw [pickLabel_eq, if_pos h2] at hn
      rcases maxCount_attained t2i cnt names (by omega) with ⟨w, hw, hwv, hwe⟩
      have : (fun n => (t2i n).isSome && (cnt n == maxCount t2i cnt names)) w = true := by
        simp [hwv, hwe]
      exact absurd this (List.find?_eq_none.mp hn w hw)
    · exact hnone names
  · intro sizes orgH orgW pre post obj st hall
    induction pre generalizing st with
    | nil =>
      show encodeImgObjs t2i cnt sizes orgH orgW st (obj :: post) =
        encodeImgObjs t2i cnt sizes orgH orgW st post
      simp only [encodeImgObjs, hnone obj.names hall]
    | cons p pre ih =>
      simp only [List.cons_append, encodeImgObjs]
      cases pickLabel t2i cnt p.names with
      | none => exact ih st
      | some lab => exact ih _
  · intro sizes orgH orgW obj rest st lab hsome
    simp only [encodeImgObjs, hsome]

/-- Witness for C4: in the two-token example vocabulary, the object
names `["c", "a"]` resolve to "a" (the only in-vocabulary name). -/
theorem encode_objects_label_policy_witness :
    "a" ∈ ["c", "a"] ∧ (exVocab "a").isSome ∧
    ∀ n ∈ ["c", "a"], (exVocab n).isSome → exCnt n ≤ exCnt "a" :=
  (encode_objects_label_policy exVocab exCnt
    (fun s _ => by norm_num [exCnt])).1 ["c", "a"] "a" (by decide)

/-- Claim C10.  When two or more in-vocabulary names are tied for the
maximal corpus count, `encode_objects` resolves the label to the
earliest name in the object's names list attaining the maximum (the
comparison is strict), so the label depends on the order of the names
list: the same name set in the opposite order yields a different
label. -/
theorem label_tie_first_name :
    (∀ (t2i : String → Option Nat) (cnt : String → Nat),
      (∀ s, (t2i s).isSome → 0 < cnt s) →
      ∀ (names : List String) (n1 n2 : String), n1 ∈ names → n2 ∈ names → n1 ≠ n2 →
      (t2i n1).isSome → (t2i n2).isSome →
      cnt n1 = maxCount t2i cnt names → cnt n2 = maxCount t2i cnt names →
      pickLabel t2i cnt names =
        names.find? (fun n => (t2i n).isSome && (cnt n == maxCount t2i cnt names))) ∧
    pickLabel exVocab exCnt ["a", "b"] = some "a" ∧
    pickLabel exVocab exCnt ["b", "a"] = some "b" := by
  refine ⟨?_, by decide, by decide⟩
  intro t2i cnt hpos names n1 n2 h1 h2 _ hv1 _ hc1 _
  rw [pickLabel_eq, if_pos ?_]
  rw [← hc1]
  exact hpos n1 hv1

/-- Witness for C10: with both names tied at count 5, the list
`["a", "b"]` resolves to its first in-vocabulary maximal name. -/
theorem label_tie_first_name_witness :
    pickLabel exVocab exCnt ["a", "b"] =
      (["a", "b"] : List String).find?
        (fun n => (exVocab n).isSome && (exCnt n == maxCount exVocab exCnt ["a", "b"])) :=
  label_tie_first_name.1 exVocab exCnt (fun s _ => by norm_num [exCnt])
    ["a", "b"] "a" "b" (by decide) (by decide) (by decide) (by decide) (by decide)
    (by decide) (by decide)

/-! ### The token dictionary (claim about sorted index assignment) -/

theorem build_fold_eq (l : List String) :
    ∀ (a : List (String × Nat)) (b : List (Nat × String)) (k : Nat),
    l.foldl (fun (acc : List (String × Nat) × List (Nat × String) × Nat) token =>
        (acc.1 ++ [(token, acc.2.2)], acc.2.1 ++ [(acc.2.2, token)], acc.2.2 + 1))
        (a, b, k) =
      (a ++ (List.enumFrom k l).map (fun p => (p.2, p.1)),
       b ++ List.enumFrom k l, k + l.length) := by
  induction l with
  | nil => intro a b k; simp
  | cons t l ih =>
    intro a b k
    rw [List.foldl_cons]
    rw [ih (a ++ [(t, k)]) (b ++ [(k, t)]) (k + 1)]
    simp only [List.enumFrom_cons, List.map_cons, List.append_assoc, List.singleton_append,
      List.length_cons, Prod.mk.injEq]
    refine ⟨trivial, trivial, by omega⟩

theorem build_token_dict_eq (vocab : List String) :
    build_token_dict vocab =
      ((List.enumFrom 1 (vocab.toFinset.sort (· ≤ ·))).map (fun p => (p.2, p.1)),
       List.enumFrom 1 (vocab.toFinset.sort (· ≤ ·))) := by
  simp only [build_token_dict]
  rw [build_fold_eq]
  simp

theorem lookup_enum_swap (t : String) : ∀ (l : List String), t ∈ l →
    ∀ k, ((List.enumFrom k l).map (fun p => (p.2, p.1))).lookup t =
      some (k + l.indexOf t) := by
  intro l
  induction l with
  | nil => intro ht; exact absurd ht (List.not_mem_nil t)
  | cons a rest ih =>
    intro ht k
    rw [List.enumFrom_cons, List.map_cons]
    by_cases he : t = a
    · subst he
      simp only [List.lookup, beq_self_eq_true]
      rw [List.indexOf_cons_self]
      rfl
    · have hm : t ∈ rest := by
        rcases List.mem_cons.mp ht with h | h
        · exact absurd h he
        · exact h
      simp only [List.lookup, beq_eq_false_iff_ne.mpr he]
      rw [ih hm (k + 1), List.indexOf_cons_ne rest (fun h => he h.symm)]
      congr 1
      omega

theorem lookup_iff_mem {α β : Type} [BEq α] [LawfulBEq α] (l : List (α × β))
    (hnd : (l.map Prod.fst).Nodup) (k : α) (v : β) :
    l.lookup k = some v ↔ (k, v) ∈ l := by
  induction l with
  | nil => simp [List.lookup]
  | cons p rest ih =>
    rw [List.map_cons, List.nodup_cons] at hnd
    by_cases he : k = p.1
    · subst he
      simp only [List.lookup, beq_self_eq_true, Option.some.injEq, List.mem_cons]
      constructor
      · intro h
        exact Or.inl (by rw [← h])
      · intro h
        rcases h with h | h
        · exact (congrArg Prod.snd h).symm
        · exact absurd (List.mem_map_of_mem Prod.fst h) hnd.1
    · have hb : (k == p.1) = false := beq_eq_false_iff_ne.mpr he
      simp only [List.lookup, hb, List.mem_cons]
      rw [ih hnd.2]
      constructor
      · intro h; exact Or.inr h
      · intro h
        rcases h with h | h
        · exact absurd (congrArg Prod.fst h) he
        · exact h

theorem indexOf_sorted_rank (t : String) : ∀ (l : List String),
    l.Sorted (· ≤ ·) → l.Nodup → t ∈ l →
    l.indexOf t = (l.filter (fun s => decide (s < t))).length := by
  intro l
  induction l with
  | nil => intro _ _ ht; exact absurd ht (List.not_mem_nil t)
  | cons a rest ih =>
    intro hs hd ht
    have hs2 := List.sorted_cons.mp hs
    have hd2 := List.nodup_cons.mp hd
    by_cases he : t = a
    · subst he
      rw [List.indexOf_cons_self]
      have hnil : rest.filter (fun s => decide (s < t)) = [] := by
        rw [List.filter_eq_nil_iff]
        intro x hx
        simp only [decide_eq_true_eq]
        exact not_lt.mpr (hs2.1 x hx)
      rw [List.filter_cons]
      simp only [decide_eq_true_eq, lt_irrefl, if_neg (lt_irrefl t), hnil]
      rfl
    · have hm : t ∈ rest := by
        rcases List.mem_cons.mp ht with h | h
        · exact absurd h he
        · exact h
      have hat : a < t := lt_of_le_of_ne (hs2.1 t hm) (fun h => he h.symm)
      rw [List.indexOf_cons_ne rest (fun h => he h.symm)]
      rw [List.filter_cons]
      simp only [decide_eq_true_eq, if_pos hat, List.length_cons]
      rw [ih hs2.2 hd2.2 hm]

theorem sort_filter_length (s : Finset String) (t : String) :
    ((s.sort (· ≤ ·)).filter (fun x => decide (x < t))).length =
      (s.filter (fun x => x < t)).card := by
  have hperm : (s.sort (· ≤ ·)).Perm s.toList := Finset.sort_perm_toList (· ≤ ·) s
  rw [List.Perm.length_eq (List.Perm.filter _ hperm)]
  have h1 : (s.filter (fun x => x < t)).card =
      Multiset.card (Multiset.filter (fun x => x < t) s.val) := by
    rw [← Finset.filter_val]
    rfl
  rw [h1, ← Finset.coe_toList s, Multiset.filter_coe]
  rfl

/-- Claim C5.  `build_token_dict` assigns to each token the index `1 +`
(its rank in lexicographic order over the token set); the assigned
indices are exactly `1, 2, …, n` in sorted-token order; `token_to_idx`
and `idx_to_token` are mutually inverse; and the result depends only on
the set of tokens, not on the insertion order of the input list. -/
theorem build_token_dict_spec (vocab : List String) :
    (∀ t, t ∈ vocab →
      (build_token_dict vocab).1.lookup t =
        some (1 + (vocab.toFinset.filter (fun s => s < t)).card)) ∧
    (∀ t i, (build_token_dict vocab).1.lookup t = some i ↔
      (build_token_dict vocab).2.lookup i = some t) ∧
    ((build_token_dict vocab).1.map Prod.snd = List.range' 1 vocab.toFinset.card) ∧
    (∀ vocab2 : List String, vocab.toFinset = vocab2.toFinset →
      build_token_dict vocab = build_token_dict vocab2) := by
  have hsorted : (vocab.toFinset.sort (· ≤ ·)).Sorted (· ≤ ·) :=
    Finset.sort_sorted (· ≤ ·) vocab.toFinset
  have hnd : (vocab.toFinset.sort (· ≤ ·)).Nodup :=
    Finset.sort_nodup (· ≤ ·) vocab.toFinset
  refine ⟨?_, ?_, ?_, ?_⟩
  · intro t ht
    have hts : t ∈ vocab.toFinset.sort (· ≤ ·) := by
      rw [Finset.mem_sort]
      exact List.mem_toFinset.mpr ht
    rw [build_token_dict_eq]
    rw [lookup_enum_swap t _ hts 1]
    rw [indexOf_sorted_rank t _ hsorted hnd hts]
    rw [sort_filter_length]
  · intro t i
    rw [build_token_dict_eq]
    have hk1 : (((List.enumFrom 1 (vocab.toFinset.sort (· ≤ ·))).map
        (fun p => (p.2, p.1))).map Prod.fst).Nodup := by
      have : ((List.enumFrom 1 (vocab.toFinset.sort (· ≤ ·))).map
          (fun p => (p.2, p.1))).map Prod.fst =
          (List.enumFrom 1 (vocab.toFinset.sort (· ≤ ·))).map Prod.snd := by
        rw [List.map_map]
        rfl
      rw [this, List.enumFrom_map_snd]
      exact hnd
    have hk2 : ((List.enumFrom 1 (vocab.toFinset.sort (· ≤ ·))).map Prod.fst).Nodup := by
      rw [List.enumFrom_map_fst]
      exact List.nodup_range' 1 _
    rw [lookup_iff_mem _ hk1, lookup_iff_mem _ hk2]
    constructor
    · intro h
      rcases List.mem_map.mp h with ⟨p, hp, he⟩
      have h1 : p.2 = t := congrArg Prod.fst he
      have h2 : p.1 = i := congrArg Prod.snd he
      rw [← h1, ← h2]
      exact hp
    · intro h
      exact List.mem_map.mpr ⟨(i, t), h, rfl⟩
  · rw [build_token_dict_eq]
    have : ((List.enumFrom 1 (vocab.toFinset.sort (· ≤ ·))).map
        (fun p => (p.2, p.1))).map Prod.snd =
        (List.enumFrom 1 (vocab.toFinset.sort (· ≤ ·))).map Prod.fst := by
      rw [List.map_map]
      rfl
    rw [this, List.enumFrom_map_fst, Finset.length_sort]
  · intro vocab2 he
    unfold build_token_dict
    rw [he]

/-- Witness for C5 at the concrete input `["b", "a"]`: "a" receives
index `1 + 0`. -/
theorem build_token_dict_spec_witness :
    (build_token_dict ["b", "a"]).1.lookup "a" =
      some (1 + ((["b", "a"] : List String).toFinset.filter (fun s => s < "a")).card) :=
  (build_token_dict_spec ["b", "a"]).1 "a" (by simp)

/-! ### The relationship filter chain -/

theorem classifyRel_objF (t2i : String → Option Nat) (table : List (Nat × Nat))
    (r : Rela) (h1 : (table.lookup r.subject_id).isNone ∨ (table.lookup r.obj_id).isNone) :
    classifyRel t2i table r = .objFiltered := by
  unfold classifyRel
  rw [if_pos h1]

theorem classifyRel_predF (t2i : String → Option Nat) (table : List (Nat × Nat))
    (r : Rela) (h1 : ¬ ((table.lookup r.subject_id).isNone ∨ (table.lookup r.obj_id).isNone))
    (h2 : (t2i r.predicate).isNone) :
    classifyRel t2i table r = .predFiltered := by
  unfold classifyRel
  rw [if_neg h1, if_pos h2]

theorem classifyRel_dupF (t2i : String → Option Nat) (table : List (Nat × Nat))
    (r : Rela) (h1 : ¬ ((table.lookup r.subject_id).isNone ∨ (table.lookup r.obj_id).isNone))
    (h2 : ¬ (t2i r.predicate).isNone)
    (h3 : (table.lookup r.subject_id).getD 0 = (table.lookup r.obj_id).getD 0) :
    classifyRel t2i table r = .dupFiltered := by
  unfold classifyRel
  rw [if_neg h1, if_neg h2, if_pos h3]

theorem classifyRel_keep (t2i : String → Option Nat) (table : List (Nat × Nat))
    (r : Rela) (h1 : ¬ ((table.lookup r.subject_id).isNone ∨ (table.lookup r.obj_id).isNone))
    (h2 : ¬ (t2i r.predicate).isNone)
    (h3 : ¬ (table.lookup r.subject_id).getD 0 = (table.lookup r.obj_id).getD 0) :
    classifyRel t2i table r = .kept ((t2i r.predicate).getD 0)
      ((table.lookup r.subject_id).getD 0) ((table.lookup r.obj_id).getD 0) := by
  unfold classifyRel
  rw [if_neg h1, if_neg h2, if_neg h3]

theorem classifyRel_kept_spec (t2i : String → Option Nat) (table : List (Nat × Nat))
    (r : Rela) (p s o : Nat) (h : classifyRel t2i table r = .kept p s o) :
    table.lookup r.subject_id = some s ∧ table.lookup r.obj_id = some o ∧
    t2i r.predicate = some p ∧ s ≠ o := by
  by_cases h1 : (table.lookup r.subject_id).isNone ∨ (table.lookup r.obj_id).isNone
  · rw [classifyRel_objF t2i table r h1] at h
    exact RelOutcome.noConfusion h
  · by_cases h2 : (t2i r.predicate).isNone
    · rw [classifyRel_predF t2i table r h1 h2] at h
      exact RelOutcome.noConfusion h
    · by_cases h3 : (table.lookup r.subject_id).getD 0 = (table.lookup r.obj_id).getD 0
      · rw [classifyRel_dupF t2i table r h1 h2 h3] at h
        exact RelOutcome.noConfusion h
      · rw [classifyRel_keep t2i table r h1 h2 h3] at h
        injection h with hp hs ho
        push_neg at h1
        have hsub : table.lookup r.subject_id = some ((table.lookup r.subject_id).getD 0) := by
          cases hl : table.lookup r.subject_id with
          | none => rw [hl] at h1; exact absurd rfl h1.1
          | some u => rfl
        have hobj : table.lookup r.obj_id = some ((table.lookup r.obj_id).getD 0) := by
          cases hl : table.lookup r.obj_id with
          | none => rw [hl] at h1; exact absurd rfl h1.2
          | some u => rfl
        have hprd : t2i r.predicate = some ((t2i r.predicate).getD 0) := by
          cases hl : t2i r.predicate with
          | none => rw [hl] at h2; exact absurd rfl h2
          | some u => rfl
        refine ⟨by rw [hsub, hs], by rw [hobj, ho], by rw [hprd, hp], ?_⟩
        rw [← hs, ← ho]
        exact h3

theorem encodeImgRels_pairs (t2i : String → Option Nat) (table : List (Nat × Nat))
    (rels : List Rela) : ∀ st : RelState, (∀ pr ∈ st.pairs, pr.1 ≠ pr.2) →
    ∀ pr ∈ (encodeImgRels t2i table st rels).pairs, pr.1 ≠ pr.2 := by
  induction rels with
  | nil => intro st hst; exact hst
  | cons r rest ih =>
    intro st hst
    simp only [encodeImgRels]
    cases hc : classifyRel t2i table r with
    | objFiltered => exact ih _ hst
    | predFiltered => exact ih _ hst
    | dupFiltered => exact ih _ hst
    | kept p s o =>
      apply ih
      intro pr hpr
      simp only [List.mem_append, List.mem_singleton] at hpr
      rcases hpr with hm | he
      · exact hst pr hm
      · rw [he]
        exact (classifyRel_kept_spec t2i table r p s o hc).2.2.2

theorem encodeRelsAux_pairs (t2i : String → Option Nat)
    (tables : List (List (Nat × Nat))) (rel_data : List (List Rela)) :
    ∀ (i : Nat) (st : RelState), (∀ pr ∈ st.pairs, pr.1 ≠ pr.2) →
    ∀ pr ∈ (encodeRelsAux t2i tables rel_data i st).encoded_rel, pr.1 ≠ pr.2 := by
  induction rel_data with
  | nil => intro i st _ pr hpr; simp [encodeRelsAux] at hpr
  | cons rels rest ih =>
    intro i st hst pr hpr
    simp only [encodeRelsAux] at hpr
    rcases List.mem_append.mp hpr with hm | hm
    · exact encodeImgRels_pairs t2i (tables.getD i []) rels _ (by simp) pr hm
    · exact ih (i + 1) _ (by simp) pr hm

/-- Claim C3.  `encode_relationships` rejects a relationship exactly when,
checked in this order: an endpoint id is absent from the image's
id-to-index table (filtered by object); the predicate is absent from the
predicate vocabulary (filtered by predicate); both endpoints resolve to
the same final index (filtered by duplicate).  A kept relationship
resolves both endpoints and the predicate, and no emitted (subject,
object) index pair has equal components. -/
theorem relationship_filter_policy :
    (∀ (t2i : String → Option Nat) (table : List (Nat × Nat)) (r : Rela),
      (classifyRel t2i table r = .objFiltered ↔
        (table.lookup r.subject_id).isNone ∨ (table.lookup r.obj_id).isNone) ∧
      (classifyRel t2i table r = .predFiltered ↔
        ¬ ((table.lookup r.subject_id).isNone ∨ (table.lookup r.obj_id).isNone) ∧
        (t2i r.predicate).isNone) ∧
      (classifyRel t2i table r = .dupFiltered ↔
        ¬ ((table.lookup r.subject_id).isNone ∨ (table.lookup r.obj_id).isNone) ∧
        ¬ (t2i r.predicate).isNone ∧
        (table.lookup r.subject_id).getD 0 = (table.lookup r.obj_id).getD 0) ∧
      (∀ p s o, classifyRel t2i table r = .kept p s o →
        table.lookup r.subject_id = some s ∧ table.lookup r.obj_id = some o ∧
        t2i r.predicate = some p ∧ s ≠ o)) ∧
    (∀ (rel_data : List (List Rela)) (t2i : String → Option Nat)
      (tables : List (List (Nat × Nat))),
      ∀ pr ∈ (encode_relationships rel_data t2i tables).encoded_rel, pr.1 ≠ pr.2) := by
  constructor
  · intro t2i table r
    by_cases h1 : (table.lookup r.subject_id).isNone ∨ (table.lookup r.obj_id).isNone
    · have hc := classifyRel_objF t2i table r h1
      refine ⟨⟨fun _ => h1, fun _ => hc⟩, ?_, ?_, ?_⟩
      · constructor
        · intro he; rw [hc] at he; exact RelOutcome.noConfusion he
        · rintro ⟨ha, _⟩; exact absurd h1 ha
      · constructor
        · intro he; rw [hc] at he; exact RelOutcome.noConfusion he
        · rintro ⟨ha, _⟩; exact absurd h1 ha
      · intro p s o he
        rw [hc] at he
        exact RelOutcome.noConfusion he
    · by_cases h2 : (t2i r.predicate).isNone
      · have hc := classifyRel_predF t2i table r h1 h2
        refine ⟨?_, ⟨fun _ => ⟨h1, h2⟩, fun _ => hc⟩, ?_, ?_⟩
        · constructor
          · intro he; rw [hc] at he; exact RelOutcome.noConfusion he
          · intro ha; exact absurd ha h1
        · constructor
          · intro he; rw [hc] at he; exact RelOutcome.noConfusion he
          · rintro ⟨_, hb, _⟩; exact absurd h2 hb
        · intro p s o he
          rw [hc] at he
          exact RelOutcome.noConfusion he
      · by_cases h3 : (table.lookup r.subject_id).getD 0 = (table.lookup r.obj_id).getD 0
        · have hc := classifyRel_dupF t2i table r h1 h2 h3
          refine ⟨?_, ?_, ⟨fun _ => ⟨h1, h2, h3⟩, fun _ => hc⟩, ?_⟩
          · constructor
            · intro he; rw [hc] at he; exact RelOutcome.noConfusion he
            · intro ha; exact absurd ha h1
          · constructor
            · intro he; rw [hc] at he; exact RelOutcome.noConfusion he
            · rintro ⟨_, hb⟩; exact absurd hb h2
          · intro p s o he
            rw [hc] at he
            exact RelOutcome.noConfusion he
        · have hc := classifyRel_keep t2i table r h1 h2 h3
          refine ⟨?_, ?_, ?_, ?_⟩
          · constructor
            · intro he; rw [hc] at he; exact RelOutcome.noConfusion he
            · intro ha; exact absurd ha h1
          · constructor
            · intro he; rw [hc] at he; exact RelOutcome.noConfusion he
            · rintro ⟨_, hb⟩; exact absurd hb h2
          · constructor
            · intro he; rw [hc] at he; exact RelOutcome.noConfusion he
            · rintro ⟨_, _, hb⟩; exact absurd hb h3
          · intro p s o he
            exact classifyRel_kept_spec t2i table r p s o he
  · intro rel_data t2i tables pr hpr
    exact encodeRelsAux_pairs t2i tables rel_data 0 _ (by simp) pr hpr

/-- Witness for C3 at a concrete corpus: one image whose single
relationship joins object ids 7 and 9 through the predicate "a",
resolving to the distinct index pair (0, 1). -/
theorem relationship_filter_policy_witness :
    ((0, 1) : Nat × Nat).1 ≠ ((0, 1) : Nat × Nat).2 :=
  relationship_filter_policy.2 [[⟨7, 9, "a"⟩]] exVocab [[(7, 0), (9, 1)]]
    (0, 1) (by decide)

/-! ### Generic CSR range lemmas -/

theorem csr_fst_length (counts : List Nat) : ∀ c, (csr counts c).1.length = counts.length := by
  induction counts with
  | nil => intro c; rfl
  | cons k rest ih => intro c; simp [csr, ih (c + k)]

theorem csr_snd_length (counts : List Nat) : ∀ c, (csr counts c).2.length = counts.length := by
  induction counts with
  | nil => intro c; rfl
  | cons k rest ih => intro c; simp [csr, ih (c + k)]

theorem csr_bounds (counts : List Nat) : ∀ (c : Nat) (i : Nat), i < counts.length →
    ((csr counts c).1.getD i 0 = -1 ∧ (csr counts c).2.getD i 0 = -1) ∨
    ((c : Int) ≤ (csr counts c).1.getD i 0 ∧
     (csr counts c).1.getD i 0 ≤ (csr counts c).2.getD i 0 ∧
     (csr counts c).2.getD i 0 < (c : Int) + (counts.sum : Int)) := by
  induction counts with
  | nil => intro c i hi; simp at hi
  | cons k rest ih =>
    intro c i hi
    cases i with
    | zero =>
      simp only [csr, List.getD_cons_zero, List.sum_cons]
      by_cases h0 : k = 0
      · rw [if_pos h0, if_pos h0]
        exact Or.inl ⟨rfl, rfl⟩
      · rw [if_neg h0, if_neg h0]
        refine Or.inr ⟨le_refl _, ?_, ?_⟩ <;> omega
    | succ i =>
      simp only [csr, List.getD_cons_succ, List.sum_cons]
      rcases ih (c + k) i (by simpa using hi) with h | ⟨h1, h2, h3⟩
      · exact Or.inl h
      · exact Or.inr ⟨by omega, h2, by omega⟩

theorem csr_order (counts : List Nat) : ∀ (c : Nat) (i j : Nat), i < j → j < counts.length →
    (csr counts c).1.getD i 0 ≠ -1 → (csr counts c).1.getD j 0 ≠ -1 →
    (csr counts c).2.getD i 0 < (csr counts c).1.getD j 0 := by
  induction counts with
  | nil => intro c i j _ hj; simp at hj
  | cons k rest ih =>
    intro c i j hij hj hfi hfj
    cases j with
    | zero => omega
    | succ j =>
      cases i with
      | zero =>
        simp only [csr, List.getD_cons_zero, List.getD_cons_succ] at hfi hfj ⊢
        have h0 : ¬ k = 0 := by
          intro h
          rw [if_pos h] at hfi
          exact hfi rfl
        rw [if_neg h0] at hfi ⊢
        rcases csr_bounds rest (c + k) j (by simpa using hj) with ⟨h1, _⟩ | ⟨h1, _, _⟩
        · exact absurd h1 hfj
        · omega
      | succ i =>
        simp only [csr, List.getD_cons_succ] at hfi hfj ⊢
        exact ih (c + k) i j (by omega) (by simpa using hj) hfi hfj

theorem csr_flatten (counts : List Nat) : ∀ c : Nat,
    (csrSlices (csr counts c).1 (csr counts c).2).flatten =
      List.range' c counts.sum := by
  induction counts with
  | nil => intro c; rfl
  | cons k rest ih =>
    intro c
    simp only [csr, csrSlices, List.zip_cons_cons, List.filterMap_cons, List.sum_cons]
    by_cases h0 : k = 0
    · rw [if_pos h0, if_pos h0]
      subst h0
      have hrec := ih (c + 0)
      simp only [csrSlices, Nat.add_zero] at hrec
      simp [hrec]
    · rw [if_neg h0, if_neg h0]
      have hne : ¬ ((c : Int) = -1) := by omega
      have hrec := ih (c + k)
      simp only [csrSlices] at hrec
      have harg : ((c : Int) + (k : Int) - 1 - (c : Int) + 1).toNat = k := by omega
      have happ := List.range'_append c k rest.sum 1
      simp only [Nat.one_mul, Nat.mul_one, one_mul] at happ
      simp only [hne, if_neg, if_false, List.flatten_cons, hrec]
      simp only [Int.toNat_natCast]
      rw [harg, happ, Nat.add_comm rest.sum k]

theorem csr_CSRInv (counts : List Nat) :
    CSRInv (csr counts 0).1 (csr counts 0).2 counts.sum := by
  refine ⟨by rw [csr_fst_length, csr_snd_length], ?_, ?_, ?_⟩
  · intro i hi
    rw [csr_fst_length] at hi
    rcases csr_bounds counts 0 i hi with h | ⟨h1, h2, h3⟩
    · exact Or.inl h
    · refine Or.inr ⟨by omega, h2, by omega⟩
  · intro i j hij hj
    rw [csr_fst_length] at hj
    exact csr_order counts 0 i j hij hj
  · rw [csr_flatten counts 0, List.range_eq_range']

/-! ### Bridging the encoders to the generic CSR ranges -/

theorem encodeImgObjs_cons_none (t2i : String → Option Nat) (cnt : String → Nat)
    (sizes : List Int) (orgH orgW : Int) (st : ObjState) (obj : Obj) (rest : List Obj)
    (hp : pickLabel t2i cnt obj.names = none) :
    encodeImgObjs t2i cnt sizes orgH orgW st (obj :: rest) =
      encodeImgObjs t2i cnt sizes orgH orgW st rest := by
  simp only [encodeImgObjs, hp]

theorem encodeImgObjs_cons_some (t2i : String → Option Nat) (cnt : String → Nat)
    (sizes : List Int) (orgH orgW : Int) (st : ObjState) (obj : Obj) (rest : List Obj)
    (lab : String) (hp : pickLabel t2i cnt obj.names = some lab) :
    encodeImgObjs t2i cnt sizes orgH orgW st (obj :: rest) =
      encodeImgObjs t2i cnt sizes orgH orgW
        ⟨st.labels ++ [(t2i lab).getD 0],
         List.zipWith (fun sz bl => bl ++ [encode_box obj.x obj.y obj.w obj.h orgH orgW sz])
           sizes st.boxes,
         obj.ids.foldl (fun tb oid => (oid, st.ctr) :: tb) st.table,
         st.ctr + 1⟩ rest := by
  simp only [encodeImgObjs, hp]

theorem encodeImgObjs_spec (t2i : String → Option Nat) (cnt : String → Nat)
    (sizes : List Int) (orgH orgW : Int) (objs : List Obj) : ∀ st : ObjState,
    (encodeImgObjs t2i cnt sizes orgH orgW st objs).ctr =
      st.ctr + keptObjCount t2i cnt objs ∧
    (encodeImgObjs t2i cnt sizes orgH orgW st objs).labels.length =
      st.labels.length + keptObjCount t2i cnt objs := by
  induction objs with
  | nil => intro st; simp [encodeImgObjs, keptObjCount]
  | cons obj rest ih =>
    intro st
    cases hp : pickLabel t2i cnt obj.names with
    | none =>
      have hk : keptObjCount t2i cnt (obj :: rest) = keptObjCount t2i cnt rest := by
        simp [keptObjCount, List.filter_cons, hp]
      rw [encodeImgObjs_cons_none t2i cnt sizes orgH orgW st obj rest hp, hk]
      exact ih st
    | some lab =>
      have hk : keptObjCount t2i cnt (obj :: rest) = keptObjCount t2i cnt rest + 1 := by
        simp [keptObjCount, List.filter_cons, hp]
      rw [encodeImgObjs_cons_some t2i cnt sizes orgH orgW st obj rest lab hp, hk]
      rcases ih ⟨st.labels ++ [(t2i lab).getD 0],
        List.zipWith (fun sz bl => bl ++ [encode_box obj.x obj.y obj.w obj.h orgH orgW sz])
          sizes st.boxes,
        obj.ids.foldl (fun tb oid => (oid, st.ctr) :: tb) st.table,
        st.ctr + 1⟩ with ⟨h1, h2⟩
    
      rw [h1, h2]
      simp only [List.length_append, List.length_cons, List.length_nil]
      constructor <;> omega

theorem encodeObjsAux_cons (t2i : String → Option Nat) (cnt : String → Nat)
    (sizes : List Int) (orgH orgW : List Int) (objs : List Obj)
    (rest : List (List Obj)) (i ctr : Nat) :
    encodeObjsAux t2i cnt sizes orgH orgW (objs :: rest) i ctr =
      ⟨(encodeImgObjs t2i cnt sizes (orgH.getD i 0) (orgW.getD i 0)
          ⟨[], sizes.map (fun _ => []), [], ctr⟩ objs).labels ++
        (encodeObjsAux t2i cnt sizes orgH orgW rest (i + 1)
          (encodeImgObjs t2i cnt sizes (orgH.getD i 0) (orgW.getD i 0)
            ⟨[], sizes.map (fun _ => []), [], ctr⟩ objs).ctr).labels,
       List.zipWith (· ++ ·)
         (encodeImgObjs t2i cnt sizes (orgH.getD i 0) (orgW.getD i 0)
           ⟨[], sizes.map (fun _ => []), [], ctr⟩ objs).boxes
         (encodeObjsAux t2i cnt sizes orgH orgW rest (i + 1)
           (encodeImgObjs t2i cnt sizes (orgH.getD i 0) (orgW.getD i 0)
             ⟨[], sizes.map (fun _ => []), [], ctr⟩ objs).ctr).boxes,
       (if ctr = (encodeImgObjs t2i cnt sizes (orgH.getD i 0) (orgW.getD i 0)
            ⟨[], sizes.map (fun _ => []), [], ctr⟩ objs).ctr then -1 else (ctr : Int)) ::
         (encodeObjsAux t2i cnt sizes orgH orgW rest (i + 1)
           (encodeImgObjs t2i cnt sizes (orgH.getD i 0) (orgW.getD i 0)
             ⟨[], sizes.map (fun _ => []), [], ctr⟩ objs).ctr).im_to_first_obj,
       (if ctr = (encodeImgObjs t2i cnt sizes (orgH.getD i 0) (orgW.getD i 0)
            ⟨[], sizes.map (fun _ => []), [], ctr⟩ objs).ctr then -1
        else ((encodeImgObjs t2i cnt sizes (orgH.getD i 0) (orgW.getD i 0)
            ⟨[], sizes.map (fun _ => []), [], ctr⟩ objs).ctr : Int) - 1) ::
         (encodeObjsAux t2i cnt sizes orgH orgW rest (i + 1)
           (encodeImgObjs t2i cnt sizes (orgH.getD i 0) (orgW.getD i 0)
             ⟨[], sizes.map (fun _ => []), [], ctr⟩ objs).ctr).im_to_last_obj,
       (encodeImgObjs t2i cnt sizes (orgH.getD i 0) (orgW.getD i 0)
         ⟨[], sizes.map (fun _ => []), [], ctr⟩ objs).table ::
         (encodeObjsAux t2i cnt sizes orgH orgW rest (i + 1)
           (encodeImgObjs t2i cnt sizes (orgH.getD i 0) (orgW.getD i 0)
             ⟨[], sizes.map (fun _ => []), [], ctr⟩ objs).ctr).id_to_idx⟩ := rfl

theorem encodeObjsAux_csr (t2i : String → Option Nat) (cnt : String → Nat)
    (sizes : List Int) (orgH orgW : List Int) (obj_data : List (List Obj)) :
    ∀ (i : Nat) (ctr : Nat),
    (encodeObjsAux t2i cnt sizes orgH orgW obj_data i ctr).im_to_first_obj =
      (csr (obj_data.map (fun objs => keptObjCount t2i cnt objs)) ctr).1 ∧
    (encodeObjsAux t2i cnt sizes orgH orgW obj_data i ctr).im_to_last_obj =
      (csr (obj_data.map (fun objs => keptObjCount t2i cnt objs)) ctr).2 ∧
    (encodeObjsAux t2i cnt sizes orgH orgW obj_data i ctr).labels.length =
      (obj_data.map (fun objs => keptObjCount t2i cnt objs)).sum := by
  induction obj_data with
  | nil => intro i ctr; simp [encodeObjsAux, csr]
  | cons objs rest ih =>
    intro i ctr
    rw [encodeObjsAux_cons]
    simp only [List.map_cons, csr]
    rcases encodeImgObjs_spec t2i cnt sizes (orgH.getD i 0) (orgW.getD i 0) objs
      ⟨[], sizes.map (fun _ => []), [], ctr⟩ with ⟨hctr, hlab⟩
    dsimp only [List.length_nil, Nat.zero_add] at hctr hlab
    rw [hctr]
    rcases ih (i + 1) (ctr + keptObjCount t2i cnt objs) with ⟨ih1, ih2, ih3⟩
    refine ⟨?_, ?_, ?_⟩
    · rw [ih1]
      by_cases h0 : keptObjCount t2i cnt objs = 0
      · rw [if_pos (by omega), if_pos h0]
      · rw [if_neg (by omega), if_neg h0]
    · rw [ih2]
      by_cases h0 : keptObjCount t2i cnt objs = 0
      · rw [if_pos (by omega), if_pos h0]
      · rw [if_neg (by omega), if_neg h0]
        congr 1
    · simp only [List.length_append, List.sum_cons]
      omega

theorem encodeImgRels_cons (t2i : String → Option Nat) (table : List (Nat × Nat))
    (st : RelState) (r : Rela) (rest : List Rela) :
    encodeImgRels t2i table st (r :: rest) =
      encodeImgRels t2i table
        (match classifyRel t2i table r with
         | .objFiltered => { st with obj_filtered := st.obj_filtered + 1 }
         | .predFiltered => { st with predicate_filtered := st.predicate_filtered + 1 }
         | .dupFiltered => { st with duplicate_filtered := st.duplicate_filtered + 1 }
         | .kept p s o =>
           { st with preds := st.preds ++ [p], pairs := st.pairs ++ [(s, o)], ctr := st.ctr + 1 }) rest := by
  cases hc : classifyRel t2i table r <;> simp only [encodeImgRels, hc]

theorem encodeImgRels_spec (t2i : String → Option Nat) (table : List (Nat × Nat))
    (rels : List Rela) : ∀ st : RelState,
    (encodeImgRels t2i table st rels).ctr = st.ctr + keptRelCount t2i table rels ∧
    (encodeImgRels t2i table st rels).preds.length =
      st.preds.length + keptRelCount t2i table rels := by
  induction rels with
  | nil => intro st; simp [encodeImgRels, keptRelCount]
  | cons r rest ih =>
    intro st
    rw [encodeImgRels_cons]
    cases hc : classifyRel t2i table r with
    | objFiltered =>
      have hk : keptRelCount t2i table (r :: rest) = keptRelCount t2i table rest := by
        simp [keptRelCount, List.filter_cons, relKept, hc]
      rw [hk]
      exact ih _
    | predFiltered =>
      have hk : keptRelCount t2i table (r :: rest) = keptRelCount t2i table rest := by
        simp [keptRelCount, List.filter_cons, relKept, hc]
      rw [hk]
      exact ih _
    | dupFiltered =>
      have hk : keptRelCount t2i table (r :: rest) = keptRelCount t2i table rest := by
        simp [keptRelCount, List.filter_cons, relKept, hc]
      rw [hk]
      exact ih _
    | kept p s o =>
      have hk : keptRelCount t2i table (r :: rest) = keptRelCount t2i table rest + 1 := by
        simp [keptRelCount, List.filter_cons, relKept, hc]
      rw [hk]
      rcases ih { st with preds := st.preds ++ [p], pairs := st.pairs ++ [(s, o)], ctr := st.ctr + 1 } with ⟨h1, h2⟩
      rw [h1, h2]
      simp only [List.length_append, List.length_cons, List.length_nil]
      exact ⟨by omega, by omega⟩

theorem encodeRelsAux_cons (t2i : String → Option Nat)
    (tables : List (List (Nat × Nat))) (rels : List Rela) (rest : List (List Rela))
    (i : Nat) (st : RelState) :
    encodeRelsAux t2i tables (rels :: rest) i st =
      ⟨(encodeImgRels t2i (tables.getD i []) { st with preds := [], pairs := [] }
          rels).preds ++
        (encodeRelsAux t2i tables rest (i + 1)
          { encodeImgRels t2i (tables.getD i [])
              { st with preds := [], pairs := [] } rels with
            preds := [], pairs := [] }).encoded_pred,
       (encodeImgRels t2i (tables.getD i []) { st with preds := [], pairs := [] }
          rels).pairs ++
        (encodeRelsAux t2i tables rest (i + 1)
          { encodeImgRels t2i (tables.getD i [])
              { st with preds := [], pairs := [] } rels with
            preds := [], pairs := [] }).encoded_rel,
       (if st.ctr = (encodeImgRels t2i (tables.getD i [])
            { st with preds := [], pairs := [] } rels).ctr then -1 else (st.ctr : Int)) ::
        (encodeRelsAux t2i tables rest (i + 1)
          { encodeImgRels t2i (tables.getD i [])
              { st with preds := [], pairs := [] } rels with
            preds := [], pairs := [] }).im_to_first_rel,
       (if st.ctr = (encodeImgRels t2i (tables.getD i [])
            { st with preds := [], pairs := [] } rels).ctr then -1
        else ((encodeImgRels t2i (tables.getD i [])
            { st with preds := [], pairs := [] } rels).ctr : Int) - 1) ::
        (encodeRelsAux t2i tables rest (i + 1)
          { encodeImgRels t2i (tables.getD i [])
              { st with preds := [], pairs := [] } rels with
            preds := [], pairs := [] }).im_to_last_rel,
       (encodeRelsAux t2i tables rest (i + 1)
          { encodeImgRels t2i (tables.getD i [])
              { st with preds := [], pairs := [] } rels with
            preds := [], pairs := [] }).obj_filtered,
       (encodeRelsAux t2i tables rest (i + 1)
          { encodeImgRels t2i (tables.getD i [])
              { st with preds := [], pairs := [] } rels with
            preds := [], pairs := [] }).predicate_filtered,
       (encodeRelsAux t2i tables rest (i + 1)
          { encodeImgRels t2i (tables.getD i [])
              { st with preds := [], pairs := [] } rels with
            preds := [], pairs := [] }).duplicate_filtered⟩ := rfl

theorem encodeRelsAux_csr (t2i : String → Option Nat)
    (tables : List (List (Nat × Nat))) (rel_data : List (List Rela)) :
    ∀ (i : Nat) (st : RelState),
    (encodeRelsAux t2i tables rel_data i st).im_to_first_rel =
      (csr (relCounts t2i tables rel_data i) st.ctr).1 ∧
    (encodeRelsAux t2i tables rel_data i st).im_to_last_rel =
      (csr (relCounts t2i tables rel_data i) st.ctr).2 ∧
    (encodeRelsAux t2i tables rel_data i st).encoded_pred.length =
      (relCounts t2i tables rel_data i).sum := by
  induction rel_data with
  | nil => intro i st; simp [encodeRelsAux, relCounts, csr]
  | cons rels rest ih =>
    intro i st
    rw [encodeRelsAux_cons]
    simp only [relCounts, csr]
    rcases encodeImgRels_spec t2i (tables.getD i []) rels
      { st with preds := [], pairs := [] } with ⟨hctr, hpred⟩
    dsimp only [List.length_nil, Nat.zero_add] at hctr hpred
    rw [hctr]
    rcases ih (i + 1) { encodeImgRels t2i (tables.getD i [])
        { st with preds := [], pairs := [] } rels with preds := [], pairs := [] }
      with ⟨ih1, ih2, ih3⟩
    dsimp only at ih1 ih2 ih3
    rw [hctr] at ih1 ih2 ih3
    refine ⟨?_, ?_, ?_⟩
    · rw [ih1]
      by_cases h0 : keptRelCount t2i (tables.getD i []) rels = 0
      · rw [if_pos (by omega), if_pos h0]
      · rw [if_neg (by omega), if_neg h0]
    · rw [ih2]
      by_cases h0 : keptRelCount t2i (tables.getD i []) rels = 0
      · rw [if_pos (by omega), if_pos h0]
      · rw [if_neg (by omega), if_neg h0]
        congr 1
    · simp only [List.length_append, List.sum_cons]
      omega

/-- Claim C2.  The CSR range arrays produced by `encode_objects`
(`im_to_first_obj`, `im_to_last_obj`, over the flat label array) and by
`encode_relationships` (`im_to_first_rel`, `im_to_last_rel`, over the
flat predicate array) satisfy the CSR invariant: for each image either
both entries are -1 or the range is valid, inclusive and in bounds;
ranges of distinct images are strictly ordered; and the non-sentinel
ranges, in image order, concatenate to exactly the index sequence of the
flat array, with no gap and no overlap. -/
theorem csr_ranges_invariant (obj_data : List (List Obj)) (t2i : String → Option Nat)
    (cnt : String → Nat) (orgH orgW : List Int) (sizes : List Int)
    (rel_data : List (List Rela)) (t2ip : String → Option Nat)
    (tables : List (List (Nat × Nat))) :
    CSRInv (encode_objects obj_data t2i cnt orgH orgW sizes).im_to_first_obj
      (encode_objects obj_data t2i cnt orgH orgW sizes).im_to_last_obj
      (encode_objects obj_data t2i cnt orgH orgW sizes).labels.length ∧
    CSRInv (encode_relationships rel_data t2ip tables).im_to_first_rel
      (encode_relationships rel_data t2ip tables).im_to_last_rel
      (encode_relationships rel_data t2ip tables).encoded_pred.length := by
  constructor
  · rcases encodeObjsAux_csr t2i cnt sizes orgH orgW obj_data 0 0 with ⟨h1, h2, h3⟩
    unfold encode_objects
    rw [h1, h2, h3]
    exact csr_CSRInv _
  · rcases encodeRelsAux_csr t2ip tables rel_data 0 ⟨[], [], 0, 0, 0, 0⟩ with ⟨h1, h2, h3⟩
    unfold encode_relationships
    rw [h1, h2, h3]
    exact csr_CSRInv _

/-- Witness for C2 at a concrete two-image corpus (one kept object in
each image, one kept relationship in the first). -/
theorem csr_ranges_invariant_witness :
    CSRInv (encode_objects [[exObjA], [exObjC]] exVocab exCnt [100, 100] [100, 100]
        [512]).im_to_first_obj
      (encode_objects [[exObjA], [exObjC]] exVocab exCnt [100, 100] [100, 100]
        [512]).im_to_last_obj
      (encode_objects [[exObjA], [exObjC]] exVocab exCnt [100, 100] [100, 100]
        [512]).labels.length ∧
    CSRInv (encode_relationships [[⟨7, 9, "a"⟩], []] exVocab
        [[(7, 0), (9, 1)], []]).im_to_first_rel
      (encode_relationships [[⟨7, 9, "a"⟩], []] exVocab
        [[(7, 0), (9, 1)], []]).im_to_last_rel
      (encode_relationships [[⟨7, 9, "a"⟩], []] exVocab
        [[(7, 0), (9, 1)], []]).encoded_pred.length :=
  csr_ranges_invariant [[exObjA], [exObjC]] exVocab exCnt [100, 100] [100, 100] [512]
    [[⟨7, 9, "a"⟩], []] exVocab [[(7, 0), (9, 1)], []]

/-! ### The text normalizer under Python 2 string semantics -/

/-- Claim C9, code bug.  `sentence_preprocess` is deterministic, and on
`unicode` input it always returns a result (the trailing
`decode('utf-8', 'ignore')` drops undecodable bytes); but on a Python 2
byte-string (`str`) input containing a non-ASCII byte — such as
`'\xc2\xbd'`, the UTF-8 encoding of the half sign — the very first step
`phrase.encode('utf-8')` implicitly decodes the bytes with the `ascii`
codec and raises `UnicodeDecodeError`, contradicting the specified
"no exceptions for malformed input, degrade gracefully by dropping
undecodable bytes". -/
theorem sentence_preprocess_raises_on_bytes :
    sentence_preprocess (.bytes [0xC2, 0xBD]) = .error "UnicodeDecodeError" ∧
    (∀ cs : List Nat, ∃ out, sentence_preprocess (.unicode cs) = .ok out) ∧
    (∀ bs : List Nat, ∃ out,
      sentence_preprocess (.bytes (bs.filter (fun b => b < 0x80))) = .ok out) := by
  refine ⟨rfl, ?_, ?_⟩
  · intro cs
    exact ⟨_, rfl⟩
  · intro bs
    have hcond : ((bs.filter (fun b => decide (b < 0x80))).all
        (fun b => decide (b < 0x80))) = true := by
      rw [List.all_eq_true]
      intro b hb
      exact (List.mem_filter.mp hb).2
    unfold sentence_preprocess pyEncodeUtf8
    dsimp only
    rw [if_pos hcond]
    exact ⟨_, rfl⟩

end VGPrep
